import Mathlib

/-!
Verification of the streaming protocol engine of the `chat-cli` repository.

The development shallowly embeds the Rust sources:

* `src/gemini.rs`   — `GeminiClient`: SSE decode loop, per-part emission,
  request building (`send_message` / `send_message_stream`).
* `src/openai.rs`   — `OpenAIClient`: SSE decode loop, index-addressed
  tool-call delta accumulation, `finish_reason == "tool_calls"` emission,
  `build_messages`.
* `src/mock_llm.rs` — `MockLLMClient`: canned responses and the
  clone-based `ChatClient` implementation.
* `src/function_calling.rs` — `FunctionExecutor::execute_function`.

Rust strings are modelled as `List Char` (`Str`); the byte stream feeding
the decoder as `List Nat` (one `Nat` per byte, < 256).  Rust byte indices
into a `String` always fall on pattern occurrences of ASCII delimiters in
this code, so the character-level model of the buffer loop is
observationally faithful; a separate byte-level model (`findSub` over
`List Nat`, `isCharBoundaryB`, `utf8Decode?`) is used for the slice-safety
theorem.  `serde_json` is modelled by an executable JSON parser
(`parseJson`); JSON numbers keep their component digits, and
`\uXXXX` escapes are decoded without surrogate-pair combination (no claim
below depends on either refinement).  Wall-clock values interpolated into
fresh ids (`format!("call_\x7b\x7d", timestamp)`) are elided to the literal
prefix, and the debug-log side channel (`log_debug`) is dropped; neither
is observable on the channel.
-/

/-- Character strings, the model of Rust `String` / `&str`. -/
abbrev Str := List Char

/-- First index at which `pat` occurs as a contiguous sublist of `l`;
models Rust `str::find` for a literal pattern (byte level when `α = Nat`,
char level when `α = Char`). -/
def findSub {α : Type} [DecidableEq α] (pat : List α) : List α → Option Nat
  | [] => if pat.isPrefixOf ([] : List α) then some 0 else none
  | a :: l => if pat.isPrefixOf (a :: l) then some 0 else (findSub pat l).map (· + 1)

theorem findSub_isPrefixOf {α : Type} [DecidableEq α] (pat : List α) :
    ∀ (l : List α) (i : Nat), findSub pat l = some i → pat.isPrefixOf (l.drop i) = true := by
  intro l
  induction l with
  | nil =>
    intro i h
    simp only [findSub] at h
    split at h
    · next hp => cases h; simpa using hp
    · cases h
  | cons a l ih =>
    intro i h
    simp only [findSub] at h
    split at h
    · next hp => cases h; simpa using hp
    · match hfs : findSub pat l with
      | none => rw [hfs] at h; cases h
      | some j =>
        rw [hfs] at h
        simp only [Option.map_some'] at h
        cases h
        simpa using ih j hfs

theorem findSub_le_length {α : Type} [DecidableEq α] (pat : List α) :
    ∀ (l : List α) (i : Nat), findSub pat l = some i → i + pat.length ≤ l.length := by
  intro l
  induction l with
  | nil =>
    intro i h
    simp only [findSub] at h
    split at h
    · next hp =>
      cases h
      have : pat <+: ([] : List α) := List.isPrefixOf_iff_prefix.mp (by simpa using hp)
      have := this.length_le
      simpa using this
    · cases h
  | cons a l ih =>
    intro i h
    simp only [findSub] at h
    split at h
    · next hp =>
      cases h
      have : pat <+: (a :: l) := List.isPrefixOf_iff_prefix.mp (by simpa using hp)
      have := this.length_le
      simpa using this
    · match hfs : findSub pat l with
      | none => rw [hfs] at h; cases h
      | some j =>
        rw [hfs] at h
        simp only [Option.map_some'] at h
        cases h
        have := ih j hfs
        simp only [List.length_cons]
        omega

theorem findSub_get? {α : Type} [DecidableEq α] (pat l : List α) (i j : Nat)
    (h : findSub pat l = some i) (hj : j < pat.length) :
    l.get? (i + j) = pat.get? j := by
  have hpre : pat <+: l.drop i := List.isPrefixOf_iff_prefix.mp (findSub_isPrefixOf pat l i h)
  obtain ⟨t, ht⟩ := hpre
  have : (l.drop i).get? j = pat.get? j := by
    rw [← ht, List.get?_append]
    exact hj
  rw [← this, List.get?_drop]

/-- Whitespace predicate of Rust `str::trim` restricted to the ASCII
whitespace that can occur in SSE framing (Rust's `char::is_whitespace` is
a Unicode superset agreeing on these characters). -/
def isWsChar (c : Char) : Bool := c = ' ' || c = '\t' || c = '\n' || c = '\r'

/-- Model of Rust `str::trim`: strip leading and trailing whitespace. -/
def trimChars (s : Str) : Str :=
  ((s.dropWhile isWsChar).reverse.dropWhile isWsChar).reverse

/-- Split a list at every occurrence of the separator element, keeping
empty segments (the shape of Rust `str::split('\n')`). -/
def splitOnChar (sep : Char) : Str → List Str
  | [] => [[]]
  | c :: r =>
    if c = sep then [] :: splitOnChar sep r
    else
      match splitOnChar sep r with
      | [] => [[c]]
      | h :: t => (c :: h) :: t

/-- Strip one trailing carriage return, as Rust `str::lines` does per line. -/
def stripCR (l : Str) : Str :=
  match l.getLast? with
  | some '\r' => l.dropLast
  | _ => l

/-- Model of Rust `str::lines`: split on `'\n'`, drop the final empty
segment produced by a trailing newline (or by the empty string), and strip
one trailing `'\r'` from each line. -/
def rustLines (s : Str) : List Str :=
  let parts := splitOnChar '\n' s
  let parts := match parts.getLast? with
    | some [] => parts.dropLast
    | _ => parts
  parts.map stripCR

example : rustLines "a\nb\n".toList = ["a".toList, "b".toList] := by decide
example : rustLines "a\r\n\nb".toList = ["a".toList, [], "b".toList] := by decide
example : rustLines [] = [] := by decide
example : trimChars " \r x\t".toList = ['x'] := by decide

/-- Continuation byte test (`0x80..=0xBF`), as in UTF-8 validation. -/
def isContByte (x : Nat) : Bool := 0x80 ≤ x && x < 0xC0

/-- Admissible first continuation byte of a three-byte sequence (Unicode
table used by Rust's `String::from_utf8` validation: `0xE0` requires
`0xA0..=0xBF`, `0xED` requires `0x80..=0x9F`, the rest any continuation). -/
def utf8Cont3Ok (b c1 : Nat) : Bool :=
  if b = 0xE0 then 0xA0 ≤ c1 && c1 ≤ 0xBF
  else if b = 0xED then 0x80 ≤ c1 && c1 ≤ 0x9F
  else isContByte c1

/-- Admissible first continuation byte of a four-byte sequence (`0xF0`
requires `0x90..=0xBF`, `0xF4` requires `0x80..=0x8F`). -/
def utf8Cont4Ok (b c1 : Nat) : Bool :=
  if b = 0xF0 then 0x90 ≤ c1 && c1 ≤ 0xBF
  else if b = 0xF4 then 0x80 ≤ c1 && c1 ≤ 0x8F
  else isContByte c1

/-- Fuelled strict UTF-8 decoding of a byte list, `none` on any invalid
sequence.  The fuel only bounds recursion depth (every step consumes at
least one byte and one unit of fuel, so any fuel `≥ length` gives the
fuel-free meaning); see `utf8Decode?`. -/
def utf8DecodeF : Nat → List Nat → Option (List Char)
  | _, [] => some []
  | 0, _ :: _ => none
  | f + 1, b :: rest =>
    if b < 0x80 then (utf8DecodeF f rest).map (fun cs => Char.ofNat b :: cs)
    else if b < 0xC2 then none
    else if b ≤ 0xDF then
      match rest with
      | c1 :: r =>
        if isContByte c1 then
          (utf8DecodeF f r).map (fun cs => Char.ofNat ((b - 0xC0) * 64 + (c1 - 0x80)) :: cs)
        else none
      | [] => none
    else if b ≤ 0xEF then
      match rest with
      | c1 :: c2 :: r =>
        if utf8Cont3Ok b c1 && isContByte c2 then
          (utf8DecodeF f r).map
            (fun cs => Char.ofNat ((b - 0xE0) * 4096 + (c1 - 0x80) * 64 + (c2 - 0x80)) :: cs)
        else none
      | _ => none
    else if b ≤ 0xF4 then
      match rest with
      | c1 :: c2 :: c3 :: r =>
        if utf8Cont4Ok b c1 && isContByte c2 && isContByte c3 then
          (utf8DecodeF f r).map
            (fun cs =>
              Char.ofNat
                ((b - 0xF0) * 262144 + (c1 - 0x80) * 4096 + (c2 - 0x80) * 64 + (c3 - 0x80)) :: cs)
        else none
      | _ => none
    else none

/-- Strict UTF-8 decoding of a byte list, `none` on any invalid sequence;
models Rust `String::from_utf8` (which validates and otherwise rejects the
whole chunk). -/
def utf8Decode? (l : List Nat) : Option (List Char) := utf8DecodeF l.length l

/-- UTF-8 encoding of one character (standard 1- to 4-byte forms). -/
def utf8EncodeChar (c : Char) : List Nat :=
  let n := c.toNat
  if n < 0x80 then [n]
  else if n < 0x800 then [0xC0 + n / 64, 0x80 + n % 64]
  else if n < 0x10000 then [0xE0 + n / 4096, 0x80 + (n / 64) % 64, 0x80 + n % 64]
  else [0xF0 + n / 262144, 0x80 + (n / 4096) % 64, 0x80 + (n / 64) % 64, 0x80 + n % 64]

/-- UTF-8 encoding of a character string. -/
def utf8Encode (s : Str) : List Nat := s.flatMap utf8EncodeChar

example : utf8Encode "é".toList = [0xC3, 0xA9] := by decide
example : utf8Decode? [0xC3, 0xA9] = some ['é'] := by decide
example : utf8Decode? [0xC3] = none := by decide
example : utf8Decode? [0xA9] = none := by decide
example : utf8Decode? (utf8Encode "data: ß∀𝄞!".toList) = some "data: ß∀𝄞!".toList := by decide

/-- Byte-index character-boundary test of Rust `str::is_char_boundary`
for indices `i ≤ len`: the index is the length, or the byte at it is not
a continuation byte.  (Rust additionally special-cases `i = 0`, which on
a valid buffer coincides with this test.) -/
def isCharBoundaryB (l : List Nat) (i : Nat) : Bool :=
  decide (i = l.length) ||
    (match l.get? i with
     | some x => !(isContByte x)
     | none => false)

theorem isCharBoundaryB_cons_succ (a : Nat) (l : List Nat) (k : Nat) :
    isCharBoundaryB (a :: l) (k + 1) = isCharBoundaryB l k := by
  simp [isCharBoundaryB, List.length_cons]

theorem utf8F_boundary_zero (f : Nat) (l : List Nat) (h : (utf8DecodeF f l).isSome) :
    isCharBoundaryB l 0 = true := by
  cases l with
  | nil => simp [isCharBoundaryB]
  | cons b rest =>
    cases f with
    | zero => simp [utf8DecodeF] at h
    | succ f =>
      have hb : b < 0x80 ∨ 0xC2 ≤ b := by
        by_contra hc
        push_neg at hc
        have e1 : ¬ (b < 0x80) := by omega
        have e2 : b < 0xC2 := by omega
        have : utf8DecodeF (f + 1) (b :: rest) = none := by
          simp only [utf8DecodeF]
          rw [if_neg e1, if_pos e2]
        simp [this] at h
      simp only [isCharBoundaryB, List.get?]
      rcases hb with hb | hb <;> simp [isContByte] <;> omega

theorem utf8_boundary_zero (l : List Nat) (h : (utf8Decode? l).isSome) :
    isCharBoundaryB l 0 = true :=
  utf8F_boundary_zero l.length l h

theorem utf8Cont3Ok_ge (b c1 : Nat) (h : utf8Cont3Ok b c1 = true) : 0x80 ≤ c1 := by
  unfold utf8Cont3Ok at h
  split_ifs at h <;> simp [isContByte] at h <;> omega

theorem utf8Cont4Ok_ge (b c1 : Nat) (h : utf8Cont4Ok b c1 = true) : 0x80 ≤ c1 := by
  unfold utf8Cont4Ok at h
  split_ifs at h <;> simp [isContByte] at h <;> omega

/-- Central UTF-8 fact behind slice safety: in a byte list accepted by the
strict decoder, the position immediately after an ASCII byte is a
character boundary. -/
theorem utf8F_boundary_after :
    ∀ (f : Nat) (l : List Nat), (utf8DecodeF f l).isSome = true →
      ∀ (j x : Nat), l.get? j = some x → x < 0x80 → isCharBoundaryB l (j + 1) = true := by
  intro f
  induction f with
  | zero =>
    intro l h j x hx _
    cases l with
    | nil => simp at hx
    | cons b rest => simp [utf8DecodeF] at h
  | succ f ih =>
    intro l h j x hx hascii
    cases l with
    | nil => simp at hx
    | cons b rest =>
      simp only [utf8DecodeF] at h
      by_cases e1 : b < 0x80
      · rw [if_pos e1] at h
        simp only [Option.isSome_map'] at h
        cases j with
        | zero =>
          cases rest with
          | nil => simp [isCharBoundaryB]
          | cons c rs =>
            rw [isCharBoundaryB_cons_succ]
            exact utf8F_boundary_zero f (c :: rs) h
        | succ k =>
          rw [isCharBoundaryB_cons_succ]
          exact ih rest h k x (by simpa using hx) hascii
      · rw [if_neg e1] at h
        by_cases e2 : b < 0xC2
        · rw [if_pos e2] at h; simp at h
        · rw [if_neg e2] at h
          by_cases e3 : b ≤ 0xDF
          · rw [if_pos e3] at h
            cases rest with
            | nil => simp at h
            | cons c1 r =>
              dsimp only at h
              by_cases ec : isContByte c1 = true
              · rw [if_pos ec] at h
                simp only [Option.isSome_map'] at h
                match j, hx with
                | 0, hx =>
                  have : b = x := by simpa using hx
                  omega
                | 1, hx =>
                  have : c1 = x := by simpa using hx
                  have : 0x80 ≤ c1 := by simp [isContByte] at ec; omega
                  omega
                | (k + 2), hx =>
                  rw [isCharBoundaryB_cons_succ, isCharBoundaryB_cons_succ]
                  exact ih r h k x (by simpa using hx) hascii
              · rw [if_neg ec] at h; simp at h
          · rw [if_neg e3] at h
            by_cases e4 : b ≤ 0xEF
            · rw [if_pos e4] at h
              match rest with
              | [] => simp at h
              | [c1] => simp at h
              | c1 :: c2 :: r =>
                dsimp only at h
                by_cases ec : (utf8Cont3Ok b c1 && isContByte c2) = true
                · rw [if_pos ec] at h
                  simp only [Option.isSome_map'] at h
                  simp only [Bool.and_eq_true] at ec
                  match j, hx with
                  | 0, hx =>
                    have : b = x := by simpa using hx
                    omega
                  | 1, hx =>
                    have hx1 : c1 = x := by simpa using hx
                    have := utf8Cont3Ok_ge b c1 ec.1
                    omega
                  | 2, hx =>
                    have hx2 : c2 = x := by simpa using hx
                    have : 0x80 ≤ c2 := by
                      have := ec.2
                      simp [isContByte] at this
                      omega
                    omega
                  | (k + 3), hx =>
                    rw [isCharBoundaryB_cons_succ, isCharBoundaryB_cons_succ,
                      isCharBoundaryB_cons_succ]
                    exact ih r h k x (by simpa using hx) hascii
                · rw [if_neg ec] at h; simp at h
            · rw [if_neg e4] at h
              by_cases e5 : b ≤ 0xF4
              · rw [if_pos e5] at h
                match rest with
                | [] => simp at h
                | [c1] => simp at h
                | [c1, c2] => simp at h
                | c1 :: c2 :: c3 :: r =>
                  dsimp only at h
                  by_cases ec : (utf8Cont4Ok b c1 && isContByte c2 && isContByte c3) = true
                  · rw [if_pos ec] at h
                    simp only [Option.isSome_map'] at h
                    simp only [Bool.and_eq_true] at ec
                    match j, hx with
                    | 0, hx =>
                      have : b = x := by simpa using hx
                      omega
                    | 1, hx =>
                      have hx1 : c1 = x := by simpa using hx
                      have := utf8Cont4Ok_ge b c1 ec.1.1
                      omega
                    | 2, hx =>
                      have hx2 : c2 = x := by simpa using hx
                      have : 0x80 ≤ c2 := by
                        have := ec.1.2
                        simp [isContByte] at this
                        omega
                      omega
                    | 3, hx =>
                      have hx3 : c3 = x := by simpa using hx
                      have : 0x80 ≤ c3 := by
                        have := ec.2
                        simp [isContByte] at this
                        omega
                      omega
                    | (k + 4), hx =>
                      rw [isCharBoundaryB_cons_succ, isCharBoundaryB_cons_succ,
                        isCharBoundaryB_cons_succ, isCharBoundaryB_cons_succ]
                      exact ih r h k x (by simpa using hx) hascii
                  · rw [if_neg ec] at h; simp at h
              · rw [if_neg e5] at h; simp at h

/-- Wrapper of `utf8F_boundary_after` for the fuel-free decoder. -/
theorem utf8_boundary_after (l : List Nat) (h : (utf8Decode? l).isSome = true)
    (j x : Nat) (hx : l.get? j = some x) (hascii : x < 0x80) :
    isCharBoundaryB l (j + 1) = true :=
  utf8F_boundary_after l.length l h j x hx hascii

/-- JSON values, the model of `serde_json::Value`.  Numbers keep their
lexical components (sign, integer digits, fraction digits, exponent sign
and digits); no claim below compares numerals beyond integer-valued ones. -/
inductive Json where
  | null : Json
  | bool : Bool → Json
  | num : Bool → Str → Str → Bool → Str → Json
  | str : Str → Json
  | arr : List Json → Json
  | obj : List (Str × Json) → Json

/-- JSON insignificant whitespace (space, tab, line feed, carriage return). -/
def isJsonWs (c : Char) : Bool := c = ' ' || c = '\t' || c = '\n' || c = '\r'

/-- Drop leading JSON whitespace. -/
def skipWs : Str → Str
  | [] => []
  | c :: r => if isJsonWs c then skipWs r else c :: r

/-- Hexadecimal digit value, for `\uXXXX` escapes. -/
def hexVal (c : Char) : Option Nat :=
  if '0' ≤ c ∧ c ≤ '9' then some (c.toNat - '0'.toNat)
  else if 'a' ≤ c ∧ c ≤ 'f' then some (c.toNat - 'a'.toNat + 10)
  else if 'A' ≤ c ∧ c ≤ 'F' then some (c.toNat - 'A'.toNat + 10)
  else none

/-- Body of a JSON string after the opening quote: the decoded content and
the rest of the input after the closing quote.  Raw control characters are
rejected; the eight single-character escapes and `\uXXXX` are decoded
(a lone `\uXXXX` is taken at face value, surrogate pairs are not combined —
no input in this development uses them). -/
def parseStringBody : Str → Option (Str × Str)
  | [] => none
  | '"' :: rest => some ([], rest)
  | '\\' :: e :: rest =>
    match e with
    | '"' => (parseStringBody rest).map (fun (cs, r) => ('"' :: cs, r))
    | '\\' => (parseStringBody rest).map (fun (cs, r) => ('\\' :: cs, r))
    | '/' => (parseStringBody rest).map (fun (cs, r) => ('/' :: cs, r))
    | 'b' => (parseStringBody rest).map (fun (cs, r) => ('\x08' :: cs, r))
    | 'f' => (parseStringBody rest).map (fun (cs, r) => ('\x0c' :: cs, r))
    | 'n' => (parseStringBody rest).map (fun (cs, r) => ('\n' :: cs, r))
    | 'r' => (parseStringBody rest).map (fun (cs, r) => ('\r' :: cs, r))
    | 't' => (parseStringBody rest).map (fun (cs, r) => ('\t' :: cs, r))
    | 'u' =>
      match rest with
      | h1 :: h2 :: h3 :: h4 :: rest2 =>
        match hexVal h1, hexVal h2, hexVal h3, hexVal h4 with
        | some v1, some v2, some v3, some v4 =>
          (parseStringBody rest2).map
            (fun (cs, r) => (Char.ofNat (((v1 * 16 + v2) * 16 + v3) * 16 + v4) :: cs, r))
        | _, _, _, _ => none
      | _ => none
    | _ => none
  | c :: rest =>
    if c.toNat < 0x20 then none
    else (parseStringBody rest).map (fun (cs, r) => (c :: cs, r))

/-- Digit span: longest prefix of decimal digits, and the rest. -/
def digitSpan : Str → Str × Str
  | [] => ([], [])
  | c :: r =>
    if '0' ≤ c ∧ c ≤ '9' then
      let (ds, rest) := digitSpan r
      (c :: ds, rest)
    else ([], c :: r)

/-- JSON number starting at the given input (grammar
`-? (0 | [1-9][0-9]*) (. [0-9]+)? ([eE][+-]?[0-9]+)?`). -/
def parseNumber (s : Str) : Option (Json × Str) :=
  let (neg, s1) := match s with
    | '-' :: r => (true, r)
    | _ => (false, s)
  match s1 with
  | [] => none
  | c :: _ =>
    if ¬ ('0' ≤ c ∧ c ≤ '9') then none
    else
      let (ip, s2) := if c = '0' then (['0'], s1.drop 1) else digitSpan s1
      let (fp, s3) := match s2 with
        | '.' :: r =>
          match digitSpan r with
          | ([], _) => ([], '.' :: r)
          | (ds, rest) => (ds, rest)
        | _ => ([], s2)
      match s3 with
      | 'e' :: r => parseNumberExp neg ip fp r
      | 'E' :: r => parseNumberExp neg ip fp r
      | _ => some (Json.num neg ip fp false [], s3)
where
  parseNumberExp (neg : Bool) (ip fp : Str) (r : Str) : Option (Json × Str) :=
    let (eneg, r1) := match r with
      | '+' :: r2 => (false, r2)
      | '-' :: r2 => (true, r2)
      | _ => (false, r)
    match digitSpan r1 with
    | ([], _) => none
    | (ds, rest) => some (Json.num neg ip fp eneg ds, rest)

mutual

/-- Fuelled JSON value at the head of the input, returning the value and
the unconsumed rest.  The fuel only bounds nesting of mutual calls;
`parseJson` supplies enough for its input. -/
def parseValueF : Nat → Str → Option (Json × Str)
  | 0, _ => none
  | f + 1, s =>
    match skipWs s with
    | 'n' :: 'u' :: 'l' :: 'l' :: r => some (Json.null, r)
    | 't' :: 'r' :: 'u' :: 'e' :: r => some (Json.bool true, r)
    | 'f' :: 'a' :: 'l' :: 's' :: 'e' :: r => some (Json.bool false, r)
    | '"' :: r => (parseStringBody r).map (fun (cs, r2) => (Json.str cs, r2))
    | '{' :: r => (parseMembersF f r).map (fun (ms, r2) => (Json.obj ms, r2))
    | '[' :: r => (parseElemsF f r).map (fun (vs, r2) => (Json.arr vs, r2))
    | s2 => parseNumber s2

/-- Elements of a JSON array after the opening bracket. -/
def parseElemsF : Nat → Str → Option (List Json × Str)
  | 0, _ => none
  | f + 1, s =>
    match skipWs s with
    | ']' :: r => some ([], r)
    | s2 => parseElemsRestF f s2

/-- One-or-more comma-separated array elements, then the closing bracket. -/
def parseElemsRestF : Nat → Str → Option (List Json × Str)
  | 0, _ => none
  | f + 1, s =>
    match parseValueF f s with
    | none => none
    | some (v, r) =>
      match skipWs r with
      | ']' :: r2 => some ([v], r2)
      | ',' :: r2 => (parseElemsRestF f r2).map (fun (vs, r3) => (v :: vs, r3))
      | _ => none

/-- Members of a JSON object after the opening brace. -/
def parseMembersF : Nat → Str → Option (List (Str × Json) × Str)
  | 0, _ => none
  | f + 1, s =>
    match skipWs s with
    | '}' :: r => some ([], r)
    | s2 => parseMembersRestF f s2

/-- One-or-more comma-separated `"key": value` members, then the closing
brace. -/
def parseMembersRestF : Nat → Str → Option (List (Str × Json) × Str)
  | 0, _ => none
  | f + 1, s =>
    match skipWs s with
    | '"' :: r =>
      match parseStringBody r with
      | none => none
      | some (k, r1) =>
        match skipWs r1 with
        | ':' :: r2 =>
          match parseValueF f r2 with
          | none => none
          | some (v, r3) =>
            match skipWs r3 with
            | '\x7d' :: r4 => some ([(k, v)], r4)
            | ',' :: r4 => (parseMembersRestF f r4).map (fun (ms, r5) => ((k, v) :: ms, r5))
            | _ => none
        | _ => none
    | _ => none

end

/-- Model of `serde_json::from_str::<serde_json::Value>`: parse one JSON
value and require only whitespace after it.  The fuel `4 * length + 8`
exceeds the number of mutual-parser calls possible on the input, so it
never runs out on inputs the grammar accepts. -/
def parseJson (s : Str) : Option Json :=
  match parseValueF (4 * s.length + 8) s with
  | some (v, r) => if skipWs r = [] then some v else none
  | none => none

example : parseJson "null".toList = some Json.null := rfl
example : parseJson " { } ".toList = some (Json.obj []) := rfl
example : parseJson "\x7b\"a\": [1, true], \"b\": \"x\"\x7d".toList =
    some (Json.obj [("a".toList, Json.arr [Json.num false ['1'] [] false [],
      Json.bool true]), ("b".toList, Json.str ['x'])]) := rfl
example : parseJson "\x7b\"a\":-1.5e-3\x7d".toList =
    some (Json.obj [("a".toList,
      Json.num true ['1'] ['5'] true ['3'])]) := rfl
example : parseJson "\x7boops".toList = none := rfl
example : parseJson "[1,]".toList = none := rfl
example : parseJson "[01]".toList = none := rfl
example : parseJson "\"a\\u00e9b\"".toList = some (Json.str "aéb".toList) := rfl
example : parseJson "\x7dbad".toList = none := rfl

/-- Look up an object field by key (first occurrence; the schemas below
never carry duplicate keys). -/
def jLookup (fs : List (Str × Json)) (k : Str) : Option Json :=
  (fs.find? (fun p => p.1 == k)).map (fun p => p.2)

/-- Numeric value of an integer-valued JSON numeral (`serde` accepts only
these for `i32`/`i64` fields; the 2^63 range check is omitted, no input
here approaches it). -/
def jsonAsInt : Json → Option Int
  | Json.num neg ip [] _ [] =>
    let v : Nat := ip.foldl (fun a c => a * 10 + (c.toNat - '0'.toNat)) 0
    some (if neg then -(v : Int) else (v : Int))
  | _ => none

/-- Serde semantics of an `Option<String>` struct field: absent or `null`
gives `None`, a string gives `Some`, any other shape is a type error. -/
def getOptStr (fs : List (Str × Json)) (k : Str) : Option (Option Str) :=
  match jLookup fs k with
  | none => some none
  | some Json.null => some none
  | some (Json.str s) => some (some s)
  | some _ => none

/-- Serde semantics of an `Option<serde_json::Value>` struct field. -/
def getOptJson (fs : List (Str × Json)) (k : Str) : Option (Option Json) :=
  match jLookup fs k with
  | none => some none
  | some Json.null => some none
  | some v => some (some v)

/-- Serde semantics of an `Option<i32>`/`Option<i64>` struct field. -/
def getOptInt (fs : List (Str × Json)) (k : Str) : Option (Option Int) :=
  match jLookup fs k with
  | none => some none
  | some Json.null => some none
  | some v => (jsonAsInt v).map some

/-- Serde semantics of a required `String` struct field. -/
def getReqStr (fs : List (Str × Json)) (k : Str) : Option Str :=
  match jLookup fs k with
  | some (Json.str s) => some s
  | _ => none

/-- Serde semantics of a required integer struct field. -/
def getReqInt (fs : List (Str × Json)) (k : Str) : Option Int :=
  match jLookup fs k with
  | some v => jsonAsInt v
  | none => none

/-- Serde semantics of a required array struct field. -/
def getReqArr (fs : List (Str × Json)) (k : Str) : Option (List Json) :=
  match jLookup fs k with
  | some (Json.arr vs) => some vs
  | _ => none

/-- Gemini `Part` (gemini.rs lines 26-34): optional text, optional
`functionCall`, optional `functionResponse`. -/
structure PartS where
  text : Option Str
  functionCall : Option Json
  functionResponse : Option Json

/-- Gemini `Content` (gemini.rs lines 20-24): parts plus a role. -/
structure ContentS where
  parts : List PartS
  role : Str

/-- Gemini `Candidate` (gemini.rs lines 87-94). -/
structure CandidateS where
  content : ContentS
  finishReason : Option Str
  index : Option Int

/-- Gemini `GenerateContentResponse` (gemini.rs lines 76-85). -/
structure GenerateContentResponseS where
  candidates : List CandidateS
  usageMetadata : Option Json
  modelVersion : Option Str
  responseId : Option Str

/-- Serde deserialization of `Part` from a JSON value. -/
def parsePartS : Json → Option PartS
  | Json.obj fs => do
    let t ← getOptStr fs "text".toList
    let fc ← getOptJson fs "functionCall".toList
    let fr ← getOptJson fs "functionResponse".toList
    pure ⟨t, fc, fr⟩
  | _ => none

/-- Serde deserialization of `Content` from a JSON value. -/
def parseContentS : Json → Option ContentS
  | Json.obj fs => do
    let pjs ← getReqArr fs "parts".toList
    let parts ← pjs.mapM parsePartS
    let role ← getReqStr fs "role".toList
    pure ⟨parts, role⟩
  | _ => none

/-- Serde deserialization of `Candidate` from a JSON value. -/
def parseCandidateS : Json → Option CandidateS
  | Json.obj fs => do
    let cj ← jLookup fs "content".toList
    let content ← parseContentS cj
    let fr ← getOptStr fs "finishReason".toList
    let idx ← getOptInt fs "index".toList
    pure ⟨content, fr, idx⟩
  | _ => none

/-- Serde deserialization of `GenerateContentResponse`, the schema the
Gemini stream loop parses each SSE data payload into
(`serde_json::from_str::<GenerateContentResponse>`, gemini.rs line 392). -/
def parseGenerateContentResponseS (s : Str) : Option GenerateContentResponseS :=
  match parseJson s with
  | some (Json.obj fs) => do
    let cjs ← getReqArr fs "candidates".toList
    let candidates ← cjs.mapM parseCandidateS
    let um ← getOptJson fs "usageMetadata".toList
    let mv ← getOptStr fs "modelVersion".toList
    let ri ← getOptStr fs "responseId".toList
    pure ⟨candidates, um, mv, ri⟩
  | _ => none

/-- OpenAI `DeltaFunction` (openai.rs lines 160-166). -/
structure DeltaFunctionS where
  name : Option Str
  arguments : Option Str

/-- OpenAI `DeltaToolCall` (openai.rs lines 148-158).  `index` is `i32`
in the source and is used as `index.unwrap_or(0) as usize`; it is kept as
`Option Int` here and the cast is applied at the use site. -/
structure DeltaToolCallS where
  index : Option Int
  id : Option Str
  callType : Option Str
  function : Option DeltaFunctionS

/-- OpenAI `Delta` (openai.rs lines 138-146). -/
structure DeltaS where
  role : Option Str
  content : Option Str
  toolCalls : Option (List DeltaToolCallS)

/-- OpenAI `ChunkChoice` (openai.rs lines 130-136). -/
structure ChunkChoiceS where
  index : Int
  delta : DeltaS
  finishReason : Option Str

/-- OpenAI `ChatCompletionChunk` (openai.rs lines 121-128). -/
structure ChatCompletionChunkS where
  id : Str
  object : Str
  created : Int
  model : Str
  choices : List ChunkChoiceS

/-- Serde deserialization of `DeltaFunction` from a JSON value. -/
def parseDeltaFunctionS : Json → Option DeltaFunctionS
  | Json.obj fs => do
    let n ← getOptStr fs "name".toList
    let a ← getOptStr fs "arguments".toList
    pure ⟨n, a⟩
  | _ => none

/-- Serde deserialization of `DeltaToolCall` from a JSON value. -/
def parseDeltaToolCallS : Json → Option DeltaToolCallS
  | Json.obj fs => do
    let idx ← getOptInt fs "index".toList
    let id ← getOptStr fs "id".toList
    let ct ← getOptStr fs "type".toList
    let f ← (match jLookup fs "function".toList with
      | none => some none
      | some Json.null => some none
      | some v => (parseDeltaFunctionS v).map some)
    pure ⟨idx, id, ct, f⟩
  | _ => none

/-- Serde deserialization of `Delta` from a JSON value. -/
def parseDeltaS : Json → Option DeltaS
  | Json.obj fs => do
    let role ← getOptStr fs "role".toList
    let content ← getOptStr fs "content".toList
    let tcs ← (match jLookup fs "tool_calls".toList with
      | none => some none
      | some Json.null => some none
      | some (Json.arr vs) => (vs.mapM parseDeltaToolCallS).map some
      | some _ => none)
    pure ⟨role, content, tcs⟩
  | _ => none

/-- Serde deserialization of `ChunkChoice` from a JSON value. -/
def parseChunkChoiceS : Json → Option ChunkChoiceS
  | Json.obj fs => do
    let idx ← getReqInt fs "index".toList
    let dj ← jLookup fs "delta".toList
    let delta ← parseDeltaS dj
    let fr ← getOptStr fs "finish_reason".toList
    pure ⟨idx, delta, fr⟩
  | _ => none

/-- Serde deserialization of `ChatCompletionChunk`, the schema the OpenAI
stream loop parses each SSE data payload into
(`serde_json::from_str::<ChatCompletionChunk>`, openai.rs line 448). -/
def parseChatCompletionChunkS (s : Str) : Option ChatCompletionChunkS :=
  match parseJson s with
  | some (Json.obj fs) => do
    let id ← getReqStr fs "id".toList
    let obj ← getReqStr fs "object".toList
    let created ← getReqInt fs "created".toList
    let model ← getReqStr fs "model".toList
    let cjs ← getReqArr fs "choices".toList
    let choices ← cjs.mapM parseChunkChoiceS
    pure ⟨id, obj, created, model, choices⟩
  | _ => none

/-- One item sent over the streaming channel: the model of the
`(String, Option<serde_json::Value>)` tuples of
`mpsc::channel` in both stream loops. -/
structure ChanItem where
  text : Str
  fc : Option Json

/-- Event delimiter search of the Gemini loop (gemini.rs line 370):
`buffer.find("\r\n\r\n").or_else(|| buffer.find("\n\n"))`. -/
def geminiFindEvent (buf : Str) : Option Nat :=
  match findSub "\r\n\r\n".toList buf with
  | some i => some i
  | none => findSub "\n\n".toList buf

/-- Skip length of the Gemini loop (gemini.rs line 372):
4 when the buffer continues with `"\r\n\r\n"` at the cut, else 2. -/
def geminiSkipLen (buf : Str) (i : Nat) : Nat :=
  if ("\r\n\r\n".toList).isPrefixOf (buf.drop i) then 4 else 2

theorem geminiFindEvent_le (buf : Str) (i : Nat) (h : geminiFindEvent buf = some i) :
    i + 2 ≤ buf.length := by
  unfold geminiFindEvent at h
  split at h
  · next j hj =>
    cases h
    have := findSub_le_length "\r\n\r\n".toList buf i hj
    simp at this
    omega
  · have := findSub_le_length "\n\n".toList buf i h
    simp at this
    omega

/-- Fuelled form of the Gemini event-draining loop; every iteration
removes at least two characters from the buffer, so fuel `≥ length`
(supplied by `geminiExtractEvents`) never runs out before the search
fails. -/
def geminiExtractEventsF : Nat → Str → List Str × Str
  | 0, buf => ([], buf)
  | f + 1, buf =>
    match geminiFindEvent buf with
    | none => ([], buf)
    | some i =>
      let rest := buf.drop (i + geminiSkipLen buf i)
      let (evs, b) := geminiExtractEventsF f rest
      ((buf.take i) :: evs, b)

/-- Drain all complete SSE events from the buffer, as the inner
`while let Some(event_end) = ...` loop of gemini.rs lines 370-373 does;
returns the split-off events and the trailing partial buffer. -/
def geminiExtractEvents (buf : Str) : List Str × Str :=
  geminiExtractEventsF buf.length buf

/-- Fuelled form of the OpenAI event-draining loop (openai.rs lines
427-429: only the `"\n\n"` delimiter, skip 2). -/
def openaiExtractEventsF : Nat → Str → List Str × Str
  | 0, buf => ([], buf)
  | f + 1, buf =>
    match findSub "\n\n".toList buf with
    | none => ([], buf)
    | some i =>
      let rest := buf.drop (i + 2)
      let (evs, b) := openaiExtractEventsF f rest
      ((buf.take i) :: evs, b)

/-- Drain all complete SSE events from the buffer, as openai.rs lines
427-429 do. -/
def openaiExtractEvents (buf : Str) : List Str × Str :=
  openaiExtractEventsF buf.length buf

/-- Data payloads of one SSE event (gemini.rs lines 378-388, identically
openai.rs lines 434-444): per line, trim, require the `"data: "` prefix,
strip it, and skip blank payloads and the `"[DONE]"` sentinel. -/
def eventPayloads (ev : Str) : List Str :=
  (rustLines ev).filterMap (fun line =>
    let t := trimChars line
    if ("data: ".toList).isPrefixOf t then
      let jsonData := t.drop 6
      if trimChars jsonData = [] ∨ trimChars jsonData = "[DONE]".toList then none
      else some jsonData
    else none)

/-- Channel text sent on a JSON parse failure (gemini.rs line 432,
openai.rs line 550): `format!("JSON parse error: \x7b\x7d - Data: \x7b\x7d", e, data)`
with serde's error description `e` elided (it is interpolated between the
two literal pieces and no claim depends on its content). -/
def parseErrorText (payload : Str) : Str :=
  "JSON parse error: ".toList ++ " - Data: ".toList ++ payload

/-- Channel text sent on a transport-level stream error (gemini.rs line
447, openai.rs line 565): `format!("Stream error: \x7b\x7d", e)`. -/
def streamErrText (e : Str) : Str := "Stream error: ".toList ++ e

/-- Per-part emission of the Gemini loop (gemini.rs lines 398-421): for
each part take its text (empty when absent) and its function call, and
send one channel tuple unless both are trivial. -/
def geminiEmitParts : List PartS → List ChanItem
  | [] => []
  | p :: ps =>
    let textContent := p.text.getD []
    let functionCall := p.functionCall
    if textContent ≠ [] ∨ functionCall.isSome then
      ⟨textContent, functionCall⟩ :: geminiEmitParts ps
    else geminiEmitParts ps

/-- Processing of one data payload by the Gemini loop (gemini.rs lines
392-439): parse as `GenerateContentResponse`; on success walk the first
candidate's parts (the empty-parts check of line 397 is output-neutral:
the loop over no parts sends nothing); on failure send the parse-error
tuple. -/
def geminiPayloadItems (payload : Str) : List ChanItem :=
  match parseGenerateContentResponseS payload with
  | some rd =>
    match rd.candidates with
    | [] => []
    | c :: _ => geminiEmitParts c.content.parts
  | none => [⟨parseErrorText payload, none⟩]

/-- One `Ok(chunk)` step of the Gemini stream task (gemini.rs lines
360-443): UTF-8-validate the chunk (an invalid chunk is silently skipped
by the `if let Ok` guard), append to the buffer, split off complete
events, and emit the items of their data payloads in order. -/
def geminiStep (buffer : Str) (chunk : List Nat) : Str × List ChanItem :=
  match utf8Decode? chunk with
  | none => (buffer, [])
  | some cs =>
    let buf := buffer ++ cs
    let (events, buf2) := geminiExtractEvents buf
    (buf2, (events.flatMap eventPayloads).flatMap geminiPayloadItems)

/-- The Gemini stream task over a chunk sequence (gemini.rs lines
358-457): `Ok` chunks are processed, the first `Err` sends one
`Stream error:` tuple and breaks out of the loop. -/
def geminiRun (buffer : Str) : List (Except Str (List Nat)) → List ChanItem
  | [] => []
  | Except.ok chunk :: rest =>
    let (buf2, out) := geminiStep buffer chunk
    out ++ geminiRun buf2 rest
  | Except.error e :: _ => [⟨streamErrText e, none⟩]

/-- Channel output of the whole Gemini stream task from an empty buffer. -/
def geminiStreamOutput (chunks : List (Except Str (List Nat))) : List ChanItem :=
  geminiRun [] chunks

/-- One chunk step of the SSE decode at payload granularity (shared shape
of gemini.rs lines 360-388; the Gemini delimiter logic is used). -/
def sseStepPayloads (buffer : Str) (chunk : List Nat) : Str × List Str :=
  match utf8Decode? chunk with
  | none => (buffer, [])
  | some cs =>
    let buf := buffer ++ cs
    let (events, buf2) := geminiExtractEvents buf
    (buf2, events.flatMap eventPayloads)

/-- Decoded SSE data payload sequence over a chunk sequence. -/
def sseDecodePayloads (buffer : Str) : List (List Nat) → List Str
  | [] => []
  | c :: rest =>
    let (b2, ps) := sseStepPayloads buffer c
    ps ++ sseDecodePayloads b2 rest

/-- OpenAI `FunctionCall` (openai.rs lines 56-60). -/
structure FunctionCallW where
  name : Str
  arguments : Str

/-- OpenAI `ToolCall` (openai.rs lines 48-54), the pending-tool-call
accumulator slot. -/
structure ToolCallS where
  id : Str
  callType : Str
  function : FunctionCallW

/-- Fresh accumulator slot (openai.rs lines 470-477):
`id: format!("call_\x7b\x7d", timestamp_millis)` (the wall-clock digits are
elided), `type: "function"`, empty name and arguments. -/
def defaultToolCall : ToolCallS :=
  ⟨"call_".toList, "function".toList, ⟨[], []⟩⟩

/-- Slot-level half of merging one tool-call delta fragment (openai.rs
lines 482-499): overwrite `id` (only with a non-empty id), overwrite
`type`, overwrite `function.name`, and append `function.arguments`.
`index.unwrap_or(0) as usize` in `applyDeltaToolCall` is modelled by
`toNat` (a negative `i32`, which no backend sends, would wrap to an
astronomical `usize` and abort the growth loop on allocation; that path
is out of scope here). -/
def mergeSlot (tc0 : ToolCallS) (d : DeltaToolCallS) : ToolCallS :=
  let tc1 := match d.id with
    | some id => if id ≠ [] then { tc0 with id := id } else tc0
    | none => tc0
  let tc2 := match d.callType with
    | some ct => { tc1 with callType := ct }
    | none => tc1
  match d.function with
  | some f =>
    let tcN := match f.name with
      | some n => { tc2 with function := { tc2.function with name := n } }
      | none => tc2
    match f.arguments with
    | some a => { tcN with function := { tcN.function with arguments := tcN.function.arguments ++ a } }
    | none => tcN
  | none => tc2

/-- Vector-level half of the merge (openai.rs lines 466-480): grow with
default slots while `len <= index`, then update the slot at `index` with
`mergeSlot`. -/
def applyDeltaToolCall (acc : List ToolCallS) (d : DeltaToolCallS) : List ToolCallS :=
  let index : Nat := (d.index.getD 0).toNat
  let acc2 := acc ++ List.replicate (index + 1 - acc.length) defaultToolCall
  acc2.set index (mergeSlot ((acc2.get? index).getD defaultToolCall) d)

/-- Accumulated-arguments decoding at emission (openai.rs lines 509-519):
empty arguments become `{}`, unparseable arguments are logged and become
`{}`, otherwise the parsed value is used. -/
def openaiParseArgs (args : Str) : Json :=
  if args = [] then Json.obj []
  else
    match parseJson args with
    | some parsed => parsed
    | none => Json.obj []

/-- Tool-call emission when `finish_reason == "tool_calls"` (openai.rs
lines 504-530): walk the pending vector, take the first slot with a
non-empty name, build `{"name": ..., "args": ...}`, and `break` — at most
one call is emitted ("Only send the first tool call for now"). -/
def openaiFinishEmission (pending : List ToolCallS) : Option Json :=
  match pending.find? (fun tc => !(tc.function.name == [])) with
  | none => none
  | some tc =>
    some (Json.obj [("name".toList, Json.str tc.function.name),
                    ("args".toList, openaiParseArgs tc.function.arguments)])

/-- Processing of one parsed `ChatCompletionChunk` by the OpenAI loop
(openai.rs lines 449-546): use the first choice (none: nothing), take the
delta text, fold the tool-call fragments into the accumulator, on
`finish_reason == "tool_calls"` compute the emission, and send one tuple
unless both parts are trivial. -/
def openaiProcessChunk (acc : List ToolCallS) (ch : ChatCompletionChunkS) :
    List ToolCallS × List ChanItem :=
  match ch.choices with
  | [] => (acc, [])
  | choice :: _ =>
    let textContent := choice.delta.content.getD []
    let acc2 := (choice.delta.toolCalls.getD []).foldl applyDeltaToolCall acc
    let functionCall :=
      if choice.finishReason = some "tool_calls".toList then openaiFinishEmission acc2
      else none
    (acc2, if textContent ≠ [] ∨ functionCall.isSome then [⟨textContent, functionCall⟩] else [])

/-- Processing of one data payload by the OpenAI loop (openai.rs lines
448-557): parse as `ChatCompletionChunk`, on failure send the parse-error
tuple. -/
def openaiPayloadStep (acc : List ToolCallS) (payload : Str) :
    List ToolCallS × List ChanItem :=
  match parseChatCompletionChunkS payload with
  | some ch => openaiProcessChunk acc ch
  | none => (acc, [⟨parseErrorText payload, none⟩])

/-- Gemini `SystemInstruction` (gemini.rs lines 47-50). -/
structure SystemInstructionS where
  parts : List PartS

/-- Conversation-bearing state of `GeminiClient` (gemini.rs lines 10-18);
the HTTP client, key, model and base URL fields do not affect the claims
below and are omitted. -/
structure GeminiState where
  conversationHistory : List ContentS
  systemInstruction : Option SystemInstructionS

/-- User turn pushed for a non-empty message (gemini.rs lines 275-282). -/
def geminiUserContent (message : Str) : ContentS :=
  ⟨[⟨some message, none, none⟩], "user".toList⟩

/-- Contents list of a Gemini request (gemini.rs lines 181-194 in
`send_message` and 272-283 in `send_message_stream`): the cloned stored
history, plus one user turn only when the message is non-empty. -/
def geminiBuildContents (st : GeminiState) (message : Str) : List ContentS :=
  if message = [] then st.conversationHistory
  else st.conversationHistory ++ [geminiUserContent message]

/-- Request-relevant part of `GenerateContentRequest` (gemini.rs lines
36-45): the contents list and the separate `systemInstruction` field
(the float-valued `generationConfig` and the tool declarations built from
the registry are constants independent of history and message and are
omitted). -/
structure GenerateContentRequestS where
  contents : List ContentS
  systemInstruction : Option SystemInstructionS

/-- Request built by `GeminiClient::send_message_stream` (gemini.rs lines
296-306; `send_message` lines 207-217 builds the same shape). -/
def geminiStreamRequest (st : GeminiState) (message : Str) : GenerateContentRequestS :=
  ⟨geminiBuildContents st message, st.systemInstruction⟩

/-- Stored state after `GeminiClient::send_message_stream` returns
(gemini.rs line 266): the receiver takes `&self`, so the stored
conversation history cannot be and is not modified — the user turn goes
only into the request's cloned contents. -/
def geminiSendMessageStreamPost (st : GeminiState) (_message : Str) : GeminiState := st

/-- OpenAI chat `Message` (openai.rs lines 22-32).  Every construction
site in the client uses the `MessageContent::Text` variant, so `content`
is modelled as the text. -/
structure MessageS where
  role : Str
  content : Str
  name : Option Str
  toolCalls : Option (List ToolCallS)
  toolCallId : Option Str

/-- Conversation-bearing state of `OpenAIClient` (openai.rs lines 11-20);
client, key, model, base URL and the advertised tool list do not affect
the claims below. -/
structure OpenAIState where
  conversationHistory : List MessageS
  systemMessage : Option Str

/-- System message pushed by `build_messages` (openai.rs lines 233-241). -/
def openaiSystemMessage (s : Str) : MessageS := ⟨"system".toList, s, none, none, none⟩

/-- User message pushed by `build_messages` (openai.rs lines 247-255). -/
def openaiUserMessage (m : Str) : MessageS := ⟨"user".toList, m, none, none, none⟩

/-- `OpenAIClient::build_messages` (openai.rs lines 229-258): optional
system message, then the cloned history, then the optional new user
message. -/
def openaiBuildMessages (st : OpenAIState) (userMessage : Option Str) : List MessageS :=
  (match st.systemMessage with
    | some s => [openaiSystemMessage s]
    | none => []) ++
  st.conversationHistory ++
  (match userMessage with
    | some m => [openaiUserMessage m]
    | none => [])

/-- Argument translation at both OpenAI send sites (openai.rs lines 284
and 350): `if message.is_empty() { None } else { Some(message) }`. -/
def openaiSendArg (message : Str) : Option Str :=
  if message = [] then none else some message

/-- Stored state after `OpenAIClient::send_message_stream` returns
(openai.rs line 347): `&self` receiver, no mutation. -/
def openaiSendMessageStreamPost (st : OpenAIState) (_message : Str) : OpenAIState := st

/-- Mock `MockMessage` (mock_llm.rs lines 18-23). -/
structure MockMessageS where
  role : Str
  content : Str
  functionCall : Option Json

/-- State of `MockLLMClient` (mock_llm.rs lines 7-16).  The `HashMap` of
keyword-triggered function calls is modelled as an association list (the
map's iteration order is unspecified in Rust; the claims below do not
depend on it). -/
structure MockState where
  conversationHistory : List MockMessageS
  systemPrompt : Option Str
  responses : List Str
  responseIndex : Nat
  streamingEnabled : Bool
  delayMs : Nat
  functionCalls : List (Str × Json)

/-- ASCII lowering standing in for Rust `str::to_lowercase` (full Unicode
lowering agrees on the ASCII triggers used here). -/
def toLowerStr (s : Str) : Str := s.map Char.toLower

/-- Rust `str::contains` for a literal pattern. -/
def containsSub (hay needle : Str) : Bool := (findSub needle hay).isSome

/-- `MockLLMClient::get_next_response` (mock_llm.rs lines 70-98): a
keyword-triggered canned function call, else the cycling canned response
with its message-dependent prefix; the response index advances only on
the non-trigger path. -/
def mockGetNextResponse (st : MockState) (message : Str) : (Str × Option Json) × MockState :=
  let messageLower := toLowerStr message
  match st.functionCalls.find? (fun p => containsSub messageLower p.1) with
  | some p =>
    (("I need to call a function to help with: ".toList ++ message, some p.2), st)
  | none =>
    if st.responses = [] then
      (("Mock LLM: No responses configured".toList, none), st)
    else
      let response := (st.responses.get? (st.responseIndex % st.responses.length)).getD []
      let st2 := { st with responseIndex := st.responseIndex + 1 }
      let text :=
        if containsSub (toLowerStr message) "test".toList then
          "Mock LLM (Test Mode): ".toList ++ response
        else if containsSub (toLowerStr message) "error".toList then
          "Mock LLM: Simulating error handling scenario".toList
        else "Mock LLM: ".toList ++ response
      ((text, none), st2)

/-- `MockLLMClient::add_user_message` (mock_llm.rs lines 128-134). -/
def mockAddUserMessage (st : MockState) (message : Str) : MockState :=
  { st with conversationHistory :=
      st.conversationHistory ++ [⟨"user".toList, message, none⟩] }

/-- `MockLLMClient::add_model_response` (mock_llm.rs lines 144-150). -/
def mockAddModelResponse (st : MockState) (response : Str) (fc : Option Json) : MockState :=
  { st with conversationHistory :=
      st.conversationHistory ++ [⟨"assistant".toList, response, fc⟩] }

/-- Stored state after the `ChatClient` implementation of
`MockLLMClient::send_message_stream` returns (mock_llm.rs lines 271-308):
the method takes `&self`, clones itself (`let mut mock_self =
self.clone()`), performs every history update on the clone, and drops the
clone — the stored state is unchanged. -/
def mockSendMessageStreamPost (st : MockState) (_message : Str) : MockState := st

/-- Final state of the discarded clone inside that method: user turn
appended, next response computed (advancing the clone's cycling index),
model turn appended. -/
def mockStreamClone (st : MockState) (message : Str) : MockState :=
  let st1 := mockAddUserMessage st message
  let res := mockGetNextResponse st1 message
  mockAddModelResponse res.2 res.1.1 res.1.2

/-- `FunctionCall` (function_calling.rs lines 7-11). -/
structure FunctionCallFS where
  name : Str
  args : Json

/-- `FunctionResponse` (function_calling.rs lines 13-18). -/
structure FunctionResponseFS where
  id : Str
  name : Str
  response : Json

/-- The built-in `ToolRegistry` (tools/mod.rs lines 42-96) as the map
from tool name to the observable outcome of
`ToolRegistry::execute_tool` (validation plus execution, both I/O, are
abstracted into the per-tool outcome function). -/
structure ToolRegistryS where
  tools : List (Str × (FunctionCallFS → Except Str FunctionResponseFS))

/-- `ToolRegistry::get_tool` (tools/mod.rs line 77). -/
def registryGetTool (reg : ToolRegistryS) (name : Str) :
    Option (Str × (FunctionCallFS → Except Str FunctionResponseFS)) :=
  reg.tools.find? (fun p => p.1 == name)

/-- An `McpClientManager` (mcp_client.rs) as its advertised tool names
(`has_tool`) and the observable outcome of `execute_tool`. -/
structure McpManagerS where
  toolNames : List Str
  execTool : FunctionCallFS → Except Str FunctionResponseFS

/-- `FunctionExecutor` (function_calling.rs lines 27-30), with the shell
path's subprocess outcome abstracted per command. -/
structure FunctionExecutorS where
  registry : ToolRegistryS
  mcpManager : Option McpManagerS
  shellExec : Str → Except Str FunctionResponseFS

/-- `args.get("command").and_then(|v| v.as_str())`
(function_calling.rs lines 79-80). -/
def jsonGetStrField (args : Json) (k : Str) : Option Str :=
  match args with
  | Json.obj fs =>
    match jLookup fs k with
    | some (Json.str s) => some s
    | _ => none
  | _ => none

/-- `FunctionExecutor::execute_function` (function_calling.rs lines
74-100): `"shell_command"` goes to the shell path (missing `command`
parameter is an error), otherwise the built-in registry is consulted
first, then the MCP manager's `has_tool`, and an unresolvable name
returns `Err(anyhow!("Unknown function: \x7bname\x7d"))` to the caller. -/
def executeFunction (ex : FunctionExecutorS) (call : FunctionCallFS) :
    Except Str FunctionResponseFS :=
  if call.name = "shell_command".toList then
    match jsonGetStrField call.args "command".toList with
    | none => Except.error "Missing 'command' parameter".toList
    | some cmd => ex.shellExec cmd
  else
    match registryGetTool ex.registry call.name with
    | some p => p.2 call
    | none =>
      match ex.mcpManager with
      | some m =>
        if m.toolNames.contains call.name then m.execTool call
        else Except.error ("Unknown function: ".toList ++ call.name)
      | none => Except.error ("Unknown function: ".toList ++ call.name)

/-- Modelled from the spec: a tool call requested by a model turn, as used
by the orchestration loop of spec section 4.5 (the repository ships no
orchestration loop: `main.rs` streams text only, never dispatches tools,
and no `max_iterations` or `ToolLoopExceeded` appears anywhere in src). -/
structure SToolCall where
  name : Str
  args : Json

/-- Modelled from the spec: one conversation turn of section 3's data
model (`User | Model | Function`). -/
inductive STurn where
  | user : Str → STurn
  | model : Str → List SToolCall → STurn
  | function : Str → Json → STurn

/-- Modelled from the spec: the model's reaction in one cycle — the
accumulated text and zero or more completed tool calls (section 4.5
step 2/3). -/
structure ModelResp where
  text : Str
  toolCalls : List SToolCall

/-- Modelled from the spec: the error taxonomy entry `ToolLoopExceeded`
of section 7. -/
inductive TurnError where
  | toolLoopExceeded

/-- Modelled from the spec (section 4.5 steps 2-5 and section 7): one
cycle streams the model's response, appends the `Model` turn, stops when
no tool call was produced, and otherwise executes every tool call in
order, appends their `Function` turns in the same order, and re-invokes
the model; the configurable iteration budget is the fuel, and its
exhaustion reports `ToolLoopExceeded` while keeping the history appended
so far (rollback-free, section 7). -/
def runCycles (backend : Nat → ModelResp) (execTool : SToolCall → Json) :
    Nat → Nat → List STurn → List STurn × Option TurnError
  | 0, _, hist => (hist, some TurnError.toolLoopExceeded)
  | fuel + 1, cycle, hist =>
    let r := backend cycle
    let hist2 := hist ++ [STurn.model r.text r.toolCalls]
    if r.toolCalls.isEmpty then (hist2, none)
    else
      runCycles backend execTool fuel (cycle + 1)
        (hist2 ++ r.toolCalls.map (fun tc => STurn.function tc.name (execTool tc)))

/-- Modelled from the spec: drive one user turn to completion under the
configurable maximum iteration count (section 4.5 step 5). -/
def runLoop (backend : Nat → ModelResp) (execTool : SToolCall → Json)
    (maxIterations : Nat) (userText : Str) : List STurn × Option TurnError :=
  runCycles backend execTool maxIterations 0 [STurn.user userText]

/-- Completed tool round-trip of cycle `c`: the model turn requesting the
calls followed by one function turn per call, in call order. -/
def roundTrip (backend : Nat → ModelResp) (execTool : SToolCall → Json) (c : Nat) :
    List STurn :=
  STurn.model (backend c).text (backend c).toolCalls ::
    (backend c).toolCalls.map (fun tc => STurn.function tc.name (execTool tc))

/-- Concrete well-formed SSE response body for the chunk-boundary
evaluation: one event whose single data payload parses as
`GenerateContentResponse` and whose text contains the two-byte UTF-8
character `é`. -/
def c1Body : Str :=
  "data: \x7b\"candidates\":[\x7b\"content\":\x7b\"parts\":[\x7b\"text\":\"é\"\x7d],\"role\":\"model\"\x7d\x7d]\x7d\n\n".toList

/-- Data payload of `c1Body`. -/
def c1Payload : Str :=
  "\x7b\"candidates\":[\x7b\"content\":\x7b\"parts\":[\x7b\"text\":\"é\"\x7d],\"role\":\"model\"\x7d\x7d]\x7d".toList

/-- Byte form of `c1Body` as it crosses the network. -/
def c1Bytes : List Nat := utf8Encode c1Body

/-- Byte offset one past the first byte of the `é`, so that splitting
there separates the two bytes of one UTF-8 sequence. -/
def c1SplitPos : Nat :=
  ("data: \x7b\"candidates\":[\x7b\"content\":\x7b\"parts\":[\x7b\"text\":\"".toList).length + 1

/-- First chunk of the split delivery (ends with the lone lead byte 0xC3). -/
def c1Chunk1 : List Nat := c1Bytes.take c1SplitPos

/-- Second chunk of the split delivery (starts with the lone continuation
byte 0xA9). -/
def c1Chunk2 : List Nat := c1Bytes.drop c1SplitPos

/-- Claim C1, evaluation at the failing input: the same well-formed SSE
body delivered as one chunk decodes to its one payload, but delivered as
two chunks split inside the `é` decodes to no payload at all — the
`if let Ok(chunk_str) = String::from_utf8(chunk.to_vec())` guard
(gemini.rs line 364, openai.rs line 422) silently drops each chunk that
is not valid UTF-8 on its own, so the decode is not chunking-invariant.
The last conjunct certifies the body is well-formed for the Gemini
schema. -/
theorem c1_chunk_split_loses_payload :
    sseDecodePayloads [] [c1Bytes] = [c1Payload] ∧
    c1Chunk1 ++ c1Chunk2 = c1Bytes ∧
    sseDecodePayloads [] [c1Chunk1, c1Chunk2] = [] ∧
    (parseGenerateContentResponseS c1Payload).isSome = true :=
  ⟨rfl, rfl, rfl, rfl⟩

theorem geminiEmitParts_eq_filterMap (parts : List PartS) :
    geminiEmitParts parts =
      parts.filterMap (fun p =>
        if p.text.getD [] ≠ [] ∨ p.functionCall.isSome then
          some ⟨p.text.getD [], p.functionCall⟩ else none) := by
  induction parts with
  | nil => rfl
  | cons p ps ih =>
    simp only [geminiEmitParts, List.filterMap_cons]
    split
    · next hcond => simp [ih]
    · next hcond => simp [ih]

theorem geminiEmitParts_mem_nontrivial (parts : List PartS) (it : ChanItem)
    (hit : it ∈ geminiEmitParts parts) : it.text ≠ [] ∨ it.fc.isSome := by
  induction parts with
  | nil => simp [geminiEmitParts] at hit
  | cons p ps ih =>
    simp only [geminiEmitParts] at hit
    split at hit
    · next hcond =>
      rcases List.mem_cons.mp hit with h | h
      · subst h; exact hcond
      · exact ih h
    · exact ih hit

/-- Claim C6: for every decoded Gemini event, the loop walks the first
candidate's parts in order, sending one channel tuple per part that has
non-empty text or carries a function call (the tuple holds that part's
text and function call), and sending nothing for a part with empty text
and no function call. -/
theorem c6_gemini_per_part_emission :
    (∀ (parts : List PartS),
      geminiEmitParts parts =
        parts.filterMap (fun p =>
          if p.text.getD [] ≠ [] ∨ p.functionCall.isSome then
            some ⟨p.text.getD [], p.functionCall⟩ else none)) ∧
    (∀ (parts : List PartS) (it : ChanItem),
      it ∈ geminiEmitParts parts → it.text ≠ [] ∨ it.fc.isSome) ∧
    (∀ (payload : Str) (rd : GenerateContentResponseS) (c : CandidateS)
      (cs : List CandidateS),
      parseGenerateContentResponseS payload = some rd → rd.candidates = c :: cs →
      geminiPayloadItems payload = geminiEmitParts c.content.parts) :=
  ⟨geminiEmitParts_eq_filterMap,
   geminiEmitParts_mem_nontrivial,
   by
    intro payload rd c cs hparse hcand
    unfold geminiPayloadItems
    rw [hparse]
    dsimp only
    rw [hcand]⟩

/-- Concrete decoded event for the C6 witness. -/
def c6ExPayload : Str :=
  "\x7b\"candidates\":[\x7b\"content\":\x7b\"parts\":[\x7b\"text\":\"hi\"\x7d,\x7b\"text\":\"\"\x7d],\"role\":\"model\"\x7d\x7d]\x7d".toList

/-- Parts of the first candidate of `c6ExPayload`. -/
def c6ExParts : List PartS :=
  [⟨some "hi".toList, none, none⟩, ⟨some [], none, none⟩]

/-- Parse of `c6ExPayload`. -/
def c6ExResp : GenerateContentResponseS :=
  ⟨[⟨⟨c6ExParts, "model".toList⟩, none, none⟩], none, none, none⟩

/-- Witness for C6 at a concrete event: one part with text `"hi"`, one
with empty text and no call; the payload items are the per-part emissions,
which here are exactly one tuple. -/
theorem c6_witness :
    geminiPayloadItems c6ExPayload = geminiEmitParts c6ExParts ∧
    geminiEmitParts c6ExParts = [⟨"hi".toList, none⟩] :=
  ⟨c6_gemini_per_part_emission.2.2 c6ExPayload c6ExResp
      ⟨⟨c6ExParts, "model".toList⟩, none, none⟩ [] rfl rfl,
   rfl⟩

/-- Concrete stream for the C2 counterexample: one chunk holding an event
with an unparseable payload followed by an event with a well-formed
payload. -/
def c2Body : Str :=
  "data: \x7dbad\n\ndata: \x7b\"candidates\":[\x7b\"content\":\x7b\"parts\":[\x7b\"text\":\"hello\"\x7d],\"role\":\"model\"\x7d\x7d]\x7d\n\n".toList

/-- Counterexample to claim C2: the parse failure is reported as an
ordinary `(String, None)` tuple — the same shape as a model-text tuple,
with no tag — and it is not terminal: the loop keeps decoding and the
`"hello"` text tuple follows it on the channel, and the task then runs to
the normal end of input instead of exiting at the error. -/
theorem c2_parse_error_is_plain_nonterminal_text :
    geminiStreamOutput [Except.ok (utf8Encode c2Body)] =
      [⟨parseErrorText "\x7dbad".toList, none⟩, ⟨"hello".toList, none⟩] :=
  rfl

/-- Claim C2 as amended: a transport-level stream error produces exactly
one final `Stream error:` tuple and the task stops reading (whatever
follows the first `Err` is never decoded); an unparseable payload
produces one `JSON parse error:` tuple after which decoding of later
payloads continues; both are plain text tuples on the data channel,
distinguishable from model text only by their string prefixes. -/
theorem c2_error_reporting_amended :
    (∀ (buffer : Str) (pre : List (List Nat)) (e : Str)
      (post : List (Except Str (List Nat))),
      geminiRun buffer (pre.map Except.ok ++ Except.error e :: post) =
        geminiRun buffer (pre.map Except.ok) ++ [⟨streamErrText e, none⟩]) ∧
    (∀ (p : Str) (ps : List Str), parseGenerateContentResponseS p = none →
      (p :: ps).flatMap geminiPayloadItems =
        ⟨parseErrorText p, none⟩ :: ps.flatMap geminiPayloadItems) ∧
    (∀ p : Str, "JSON parse error:".toList <+: parseErrorText p) ∧
    (∀ e : Str, "Stream error:".toList <+: streamErrText e) := by
  refine ⟨?_, ?_, ?_, ?_⟩
  · intro buffer pre
    induction pre generalizing buffer with
    | nil => intro e post; rfl
    | cons c pre ih =>
      intro e post
      simp only [List.map_cons, List.cons_append, geminiRun, List.append_eq]
      rw [ih]
      simp [List.append_assoc]
  · intro p ps hp
    simp only [List.flatMap_cons]
    unfold geminiPayloadItems
    rw [hp]
    rfl
  · intro p
    exact ⟨' ' :: (" - Data: ".toList ++ p), rfl⟩
  · intro e
    exact ⟨' ' :: e, rfl⟩

/-- Witness for the amended C2 at concrete inputs: a one-`Err` stream
yields exactly the terminal `Stream error:` tuple, and an unparseable
payload ahead of no further payloads yields exactly the parse-error
tuple. -/
theorem c2_witness :
    geminiRun [] (([] : List (List Nat)).map Except.ok ++
        Except.error "boom".toList :: []) =
      geminiRun [] (([] : List (List Nat)).map Except.ok) ++
        [⟨streamErrText "boom".toList, none⟩] ∧
    ("\x7dbad".toList :: []).flatMap geminiPayloadItems =
      ⟨parseErrorText "\x7dbad".toList, none⟩ :: ([] : List Str).flatMap geminiPayloadItems :=
  ⟨c2_error_reporting_amended.1 [] [] "boom".toList [],
   c2_error_reporting_amended.2.1 "\x7dbad".toList [] rfl⟩

theorem mergeSlot_arguments (tc : ToolCallS) (d : DeltaToolCallS) :
    (mergeSlot tc d).function.arguments =
      tc.function.arguments ++ ((d.function.bind (fun f => f.arguments)).getD []) := by
  unfold mergeSlot
  cases hdf : d.function with
  | none =>
    cases hdi : d.id <;> cases hdc : d.callType <;> simp_all <;> split <;> rfl
  | some f =>
    cases hfn : f.name <;> cases hfa : f.arguments <;>
      cases hdi : d.id <;> cases hdc : d.callType <;> simp_all <;> split <;> rfl

theorem mergeSlot_name (tc : ToolCallS) (d : DeltaToolCallS) :
    (mergeSlot tc d).function.name =
      ((d.function.bind (fun f => f.name)).getD tc.function.name) := by
  unfold mergeSlot
  cases hdf : d.function with
  | none =>
    cases hdi : d.id <;> cases hdc : d.callType <;> simp_all <;> split <;> rfl
  | some f =>
    cases hfn : f.name <;> cases hfa : f.arguments <;>
      cases hdi : d.id <;> cases hdc : d.callType <;> simp_all <;> split <;> rfl

theorem foldl_mergeSlot_arguments (fs : List DeltaToolCallS) :
    ∀ (tc : ToolCallS),
      (fs.foldl mergeSlot tc).function.arguments =
        tc.function.arguments ++
          (fs.filterMap (fun d => d.function.bind (fun f => f.arguments))).flatten := by
  induction fs with
  | nil => intro tc; simp
  | cons d fs ih =>
    intro tc
    simp only [List.foldl_cons, List.filterMap_cons]
    rw [ih, mergeSlot_arguments]
    cases hda : d.function.bind (fun f => f.arguments) with
    | none => simp
    | some a => simp [List.append_assoc]

theorem foldl_mergeSlot_name (fs : List DeltaToolCallS) :
    ∀ (tc : ToolCallS),
      (fs.foldl mergeSlot tc).function.name =
        ((fs.filterMap (fun d => d.function.bind (fun f => f.name))).getLast?).getD
          tc.function.name := by
  induction fs with
  | nil => intro tc; simp
  | cons d fs ih =>
    intro tc
    simp only [List.foldl_cons, List.filterMap_cons]
    rw [ih, mergeSlot_name]
    cases hdn : d.function.bind (fun f => f.name) with
    | none => simp
    | some n =>
      simp only [Option.getD_some]
      cases hfm : fs.filterMap (fun d => d.function.bind (fun f => f.name)) with
      | nil => simp
      | cons m ms =>
        rw [List.getLast?_cons_cons]
        cases hgl : (m :: ms).getLast? with
        | none => simp at hgl
        | some x => simp

theorem foldl_applyDelta_same_index (i : Nat) (fs : List DeltaToolCallS) :
    ∀ (acc : List ToolCallS) (tc : ToolCallS),
      (∀ d ∈ fs, d.index = some (i : Int)) → i < acc.length → acc.get? i = some tc →
      (fs.foldl applyDeltaToolCall acc).length = acc.length ∧
      (fs.foldl applyDeltaToolCall acc).get? i = some (fs.foldl mergeSlot tc) := by
  induction fs with
  | nil => intro acc tc _ _ htc; exact ⟨rfl, htc⟩
  | cons d fs ih =>
    intro acc tc hall hlen htc
    have hdix : d.index = some (i : Int) := hall d (List.mem_cons_self d fs)
    have hstep : applyDeltaToolCall acc d = acc.set i (mergeSlot tc d) := by
      unfold applyDeltaToolCall
      rw [hdix]
      simp only [Option.getD_some, Int.toNat_ofNat]
      have hrep : i + 1 - acc.length = 0 := by omega
      rw [hrep]
      have htc2 : acc[i]? = some tc := by simpa [← List.get?_eq_getElem?] using htc
      simp [htc2]
    have hlen2 : i < (acc.set i (mergeSlot tc d)).length := by
      simpa using hlen
    have htc2 : (acc.set i (mergeSlot tc d)).get? i = some (mergeSlot tc d) := by
      rw [List.get?_set_eq_of_lt _ hlen]
    have := ih (acc.set i (mergeSlot tc d)) (mergeSlot tc d)
      (fun d' hd' => hall d' (List.mem_cons_of_mem d hd')) hlen2 htc2
    simp only [List.foldl_cons, hstep]
    exact ⟨by rw [this.1]; simp, this.2⟩

/-- Claim C3: folding K same-index tool-call delta fragments into an
empty accumulator grows the vector exactly to cover that index, ends with
the slot's `arguments` equal to the concatenation of the delivered
argument fragments in delivery order, and ends with the slot's `name`
equal to the last delivered name (empty when none was delivered). -/
theorem c3_openai_delta_accumulation (i : Nat) (fs : List DeltaToolCallS)
    (hne : fs ≠ []) (hall : ∀ d ∈ fs, d.index = some (i : Int)) :
    (fs.foldl applyDeltaToolCall []).length = i + 1 ∧
    ((fs.foldl applyDeltaToolCall []).get? i).map (fun tc => tc.function.arguments) =
      some ((fs.filterMap (fun d => d.function.bind (fun f => f.arguments))).flatten) ∧
    ((fs.foldl applyDeltaToolCall []).get? i).map (fun tc => tc.function.name) =
      some (((fs.filterMap (fun d => d.function.bind (fun f => f.name))).getLast?).getD []) := by
  match fs, hne with
  | d0 :: ds, _ =>
    have hd0 : d0.index = some (i : Int) := hall d0 (List.mem_cons_self d0 ds)
    have hfirst : applyDeltaToolCall [] d0 =
        (List.replicate (i + 1) defaultToolCall).set i (mergeSlot defaultToolCall d0) := by
      unfold applyDeltaToolCall
      rw [hd0]
      have hti : ((i : Int)).toNat = i := Int.toNat_natCast i
      simp only [Option.getD_some, hti, List.length_nil, Nat.sub_zero, List.nil_append]
      congr 1
      have : (List.replicate (i + 1) defaultToolCall)[i]? = some defaultToolCall := by
        simp [List.getElem?_replicate]
      simp [← List.get?_eq_getElem?] at this
      simp [this]
    have hlen1 : i < (applyDeltaToolCall [] d0).length := by
      rw [hfirst]; simp
    have hget1 : (applyDeltaToolCall [] d0).get? i = some (mergeSlot defaultToolCall d0) := by
      rw [hfirst, List.get?_set_eq_of_lt]
      simp
    have hrest := foldl_applyDelta_same_index i ds (applyDeltaToolCall [] d0)
      (mergeSlot defaultToolCall d0)
      (fun d hd => hall d (List.mem_cons_of_mem d0 hd)) hlen1 hget1
    refine ⟨?_, ?_, ?_⟩
    · simp only [List.foldl_cons]
      rw [hrest.1, hfirst]
      simp
    · simp only [List.foldl_cons]
      rw [hrest.2]
      have : ds.foldl mergeSlot (mergeSlot defaultToolCall d0) =
          (d0 :: ds).foldl mergeSlot defaultToolCall := rfl
      simp only [Option.map_some']
      rw [this, foldl_mergeSlot_arguments]
      rfl
    · simp only [List.foldl_cons]
      rw [hrest.2]
      have : ds.foldl mergeSlot (mergeSlot defaultToolCall d0) =
          (d0 :: ds).foldl mergeSlot defaultToolCall := rfl
      simp only [Option.map_some']
      rw [this, foldl_mergeSlot_name]
      rfl

/-- First fragment of the C3 witness: index 1, carries id, name and the
first slice of the arguments. -/
def c3ExFrag1 : DeltaToolCallS :=
  ⟨some 1, some "id1".toList, some "function".toList,
   some ⟨some "get_weather".toList, some "\x7b\"city\":".toList⟩⟩

/-- Second fragment of the C3 witness: index 1, only the rest of the
arguments. -/
def c3ExFrag2 : DeltaToolCallS :=
  ⟨some 1, none, none, some ⟨none, some "\"Oslo\"\x7d".toList⟩⟩

/-- Witness for C3 at two concrete fragments addressed to index 1: the
vector covers indices 0..1, and slot 1 reconstructs name and concatenated
arguments (evaluated concretely in the last conjunct). -/
theorem c3_witness :
    (([c3ExFrag1, c3ExFrag2].foldl applyDeltaToolCall []).length = 1 + 1 ∧
      (([c3ExFrag1, c3ExFrag2].foldl applyDeltaToolCall []).get? 1).map
          (fun tc => tc.function.arguments) =
        some (([c3ExFrag1, c3ExFrag2].filterMap
          (fun d => d.function.bind (fun f => f.arguments))).flatten) ∧
      (([c3ExFrag1, c3ExFrag2].foldl applyDeltaToolCall []).get? 1).map
          (fun tc => tc.function.name) =
        some ((([c3ExFrag1, c3ExFrag2].filterMap
          (fun d => d.function.bind (fun f => f.name))).getLast?).getD [])) ∧
    (([c3ExFrag1, c3ExFrag2].foldl applyDeltaToolCall []).get? 1).map
        (fun tc => tc.function.arguments) =
      some ("\x7b\"city\":\"Oslo\"\x7d".toList) :=
  ⟨c3_openai_delta_accumulation 1 [c3ExFrag1, c3ExFrag2] (by simp)
    (by
      intro d hd
      simp only [List.mem_cons, List.mem_singleton] at hd
      rcases hd with rfl | rfl | h
      · rfl
      · rfl
      · simp at h),
   rfl⟩

/-- Pending accumulator with two completed named slots for the C4
counterexample. -/
def c4Pending : List ToolCallS :=
  [⟨"id_a".toList, "function".toList, ⟨"tool_a".toList, "\x7b\x7d".toList⟩⟩,
   ⟨"id_b".toList, "function".toList, ⟨"tool_b".toList, "\x7b\x7d".toList⟩⟩]

/-- Terminating event with `finish_reason == "tool_calls"` and an empty
delta. -/
def c4FinishChunk : ChatCompletionChunkS :=
  ⟨"c1".toList, "chat.completion.chunk".toList, 1, "gpt".toList,
   [⟨0, ⟨none, none, none⟩, some "tool_calls".toList⟩]⟩

/-- Counterexample to claim C4: with two pending slots carrying non-empty
names (`tool_a`, `tool_b`), the terminating event produces exactly one
tool-call emission — the first named slot — because the emission loop
`break`s after it (openai.rs line 527, "Only send the first tool call for
now"); the claim's one-emission-per-named-slot (here two) does not hold. -/
theorem c4_only_first_tool_call_emitted :
    (openaiProcessChunk c4Pending c4FinishChunk).2 =
      [⟨[], some (Json.obj [("name".toList, Json.str "tool_a".toList),
                            ("args".toList, Json.obj [])])⟩] ∧
    ((openaiProcessChunk c4Pending c4FinishChunk).2.countP
      (fun it => it.fc.isSome)) = 1 :=
  ⟨rfl, rfl⟩

/-- Claim C4 as amended: on `finish_reason == "tool_calls"` the
normalizer emits at most one completed tool call — for the first pending
slot with a non-empty name (none when no slot is named) — whose `args`
are the accumulated arguments parsed as JSON, with the empty JSON object
substituted when the accumulated arguments are empty or unparseable;
remaining named slots are not emitted. -/
theorem c4_first_named_slot_emission :
    (∀ (pending : List ToolCallS) (tc : ToolCallS),
      pending.find? (fun tc => !(tc.function.name == [])) = some tc →
      openaiFinishEmission pending =
        some (Json.obj [("name".toList, Json.str tc.function.name),
                        ("args".toList, openaiParseArgs tc.function.arguments)])) ∧
    (∀ pending : List ToolCallS,
      (∀ tc ∈ pending, tc.function.name = []) → openaiFinishEmission pending = none) ∧
    (openaiParseArgs [] = Json.obj []) ∧
    (∀ args : Str, args ≠ [] → parseJson args = none → openaiParseArgs args = Json.obj []) ∧
    (∀ (args : Str) (parsed : Json), args ≠ [] → parseJson args = some parsed →
      openaiParseArgs args = parsed) ∧
    (∀ (acc : List ToolCallS) (ch : ChatCompletionChunkS),
      ((openaiProcessChunk acc ch).2.countP (fun it => it.fc.isSome)) ≤ 1) := by
  refine ⟨?_, ?_, rfl, ?_, ?_, ?_⟩
  · intro pending tc h
    unfold openaiFinishEmission
    rw [h]
  · intro pending hall
    unfold openaiFinishEmission
    rw [List.find?_eq_none.mpr (fun tc htc => by simp [hall tc htc])]
  · intro args hne hparse
    unfold openaiParseArgs
    rw [if_neg hne, hparse]
  · intro args parsed hne hparse
    unfold openaiParseArgs
    rw [if_neg hne, hparse]
  · intro acc ch
    unfold openaiProcessChunk
    cases ch.choices with
    | nil => simp
    | cons choice rest =>
      dsimp only
      have haux : ∀ (c : Prop) (inst : Decidable c) (x : ChanItem),
          List.countP (fun it => it.fc.isSome) (if c then [x] else []) ≤ 1 := by
        intro c inst x
        split <;> cases hpx : x.fc.isSome <;> simp [List.countP_cons, hpx]
      exact haux _ _ _

/-- Witness for the amended C4 at concrete inputs: on `c4Pending` the
first named slot (`tool_a`) is the one emitted, and an unparseable
accumulated-arguments string is substituted by the empty object. -/
theorem c4_witness :
    openaiFinishEmission c4Pending =
      some (Json.obj [("name".toList, Json.str "tool_a".toList),
                      ("args".toList, openaiParseArgs "\x7b\x7d".toList)]) ∧
    openaiParseArgs "notjson".toList = Json.obj [] :=
  ⟨c4_first_named_slot_emission.1 c4Pending
      ⟨"id_a".toList, "function".toList, ⟨"tool_a".toList, "\x7b\x7d".toList⟩⟩ rfl,
   c4_first_named_slot_emission.2.2.2.1 "notjson".toList (by simp) rfl⟩

/-- Gemini client state with a system instruction and empty history, for
the C7 counterexample. -/
def c7ExState : GeminiState :=
  ⟨[], some ⟨[⟨some "be concise".toList, none, none⟩]⟩⟩

/-- Counterexample to claim C7: for the Gemini client with a system
instruction loaded, the empty-text request's message list (`contents`) is
empty — the system instruction is carried in the separate
`systemInstruction` request field, never prepended to the contents — so
no non-empty rendering of "the system instruction followed by the stored
history" equals the built message list. -/
theorem c7_gemini_system_not_in_contents :
    c7ExState.systemInstruction.isSome = true ∧
    geminiBuildContents c7ExState [] = [] ∧
    (geminiStreamRequest c7ExState []).systemInstruction = c7ExState.systemInstruction ∧
    (∃ sysTurns : List ContentS, sysTurns ≠ [] ∧
      geminiBuildContents c7ExState [] =
        sysTurns ++ c7ExState.conversationHistory) = False := by
  refine ⟨rfl, rfl, rfl, eq_false ?_⟩
  rintro ⟨s, hne, heq⟩
  simp only [show geminiBuildContents c7ExState [] = [] from rfl,
    show c7ExState.conversationHistory = [] from rfl, List.append_nil] at heq
  exact hne heq.symm

/-- Claim C7 as amended: for the OpenAI client the built message list is
exactly the optional system message, then the stored history, then one
user turn iff the text is non-empty; for the Gemini client the request's
contents list is exactly the stored history plus one user turn iff the
text is non-empty, while the system instruction travels in the request's
separate `systemInstruction` field (both the non-streaming and the
streaming send sites build these same shapes). -/
theorem c7_request_building_amended :
    (∀ (st : OpenAIState) (msg : Str),
      openaiBuildMessages st (openaiSendArg msg) =
        (match st.systemMessage with
          | some s => [openaiSystemMessage s]
          | none => []) ++ st.conversationHistory ++
        (if msg = [] then [] else [openaiUserMessage msg])) ∧
    (∀ (st : GeminiState) (msg : Str),
      geminiBuildContents st msg =
        st.conversationHistory ++ (if msg = [] then [] else [geminiUserContent msg])) ∧
    (∀ (st : GeminiState) (msg : Str),
      (geminiStreamRequest st msg).contents = geminiBuildContents st msg ∧
      (geminiStreamRequest st msg).systemInstruction = st.systemInstruction) := by
  refine ⟨?_, ?_, fun st msg => ⟨rfl, rfl⟩⟩
  · intro st msg
    unfold openaiBuildMessages openaiSendArg
    by_cases h : msg = [] <;> simp [h]
  · intro st msg
    unfold geminiBuildContents
    by_cases h : msg = [] <;> simp [h]

theorem mockGetNextResponse_history (st : MockState) (msg : Str) :
    ((mockGetNextResponse st msg).2).conversationHistory = st.conversationHistory := by
  unfold mockGetNextResponse
  cases hf : List.find? (fun p => containsSub (toLowerStr msg) p.1) st.functionCalls with
  | some p => simp [hf]
  | none =>
    simp only [hf]
    split
    · rfl
    · simp

/-- Mock client state for the C9 counterexample. -/
def c9ExMock : MockState := ⟨[], none, ["hello world".toList], 0, true, 50, []⟩

/-- Counterexample to claim C9: after the `ChatClient` implementation of
`MockLLMClient::send_message_stream("hi")` returns, the stored history is
still empty — it does not contain the new user turn, which was appended
only to the discarded clone (third conjunct). -/
theorem c9_mock_stream_history_not_updated :
    (mockSendMessageStreamPost c9ExMock "hi".toList).conversationHistory = [] ∧
    ((⟨"user".toList, "hi".toList, none⟩ : MockMessageS) ∈
      (mockSendMessageStreamPost c9ExMock "hi".toList).conversationHistory) = False ∧
    (mockStreamClone c9ExMock "hi".toList).conversationHistory =
      [⟨"user".toList, "hi".toList, none⟩,
       ⟨"assistant".toList, "Mock LLM: hello world".toList, none⟩] := by
  refine ⟨rfl, eq_false ?_, rfl⟩
  intro h
  simp [mockSendMessageStreamPost, c9ExMock] at h

/-- Claim C9 as amended: `send_message_stream` never mutates the stored
conversation history in any `ChatClient` variant (the Gemini and OpenAI
receivers are `&self` and only clone the history into the request; the
Mock variant updates a clone of itself that is dropped); the new user
turn for non-empty text appears only in the outgoing request message
list, or — for the Mock — in the discarded clone. -/
theorem c9_stream_frame_amended :
    (∀ (st : GeminiState) (msg : Str), geminiSendMessageStreamPost st msg = st) ∧
    (∀ (st : OpenAIState) (msg : Str), openaiSendMessageStreamPost st msg = st) ∧
    (∀ (st : MockState) (msg : Str), mockSendMessageStreamPost st msg = st) ∧
    (∀ (st : GeminiState) (msg : Str), msg ≠ [] →
      geminiBuildContents st msg = st.conversationHistory ++ [geminiUserContent msg]) ∧
    (∀ (st : OpenAIState) (msg : Str), msg ≠ [] →
      openaiBuildMessages st (openaiSendArg msg) =
        (match st.systemMessage with
          | some s => [openaiSystemMessage s]
          | none => []) ++ st.conversationHistory ++ [openaiUserMessage msg]) ∧
    (∀ (st : MockState) (msg : Str), ∃ (resp : Str) (fc : Option Json),
      (mockStreamClone st msg).conversationHistory =
        st.conversationHistory ++
          [⟨"user".toList, msg, none⟩, ⟨"assistant".toList, resp, fc⟩]) := by
  refine ⟨fun st msg => rfl, fun st msg => rfl, fun st msg => rfl, ?_, ?_, ?_⟩
  · intro st msg h
    unfold geminiBuildContents
    rw [if_neg h]
  · intro st msg h
    unfold openaiBuildMessages openaiSendArg
    rw [if_neg h]
  · intro st msg
    refine ⟨(mockGetNextResponse (mockAddUserMessage st msg) msg).1.1,
            (mockGetNextResponse (mockAddUserMessage st msg) msg).1.2, ?_⟩
    unfold mockStreamClone mockAddModelResponse
    dsimp only
    rw [mockGetNextResponse_history]
    unfold mockAddUserMessage
    dsimp only
    simp

/-- Witness for the amended C9 at concrete inputs. -/
theorem c9_witness :
    geminiBuildContents (⟨[], none⟩ : GeminiState) "hi".toList =
      ([] : List ContentS) ++ [geminiUserContent "hi".toList] ∧
    mockSendMessageStreamPost c9ExMock "x".toList = c9ExMock :=
  ⟨c9_stream_frame_amended.2.2.2.1 ⟨[], none⟩ "hi".toList (by simp),
   c9_stream_frame_amended.2.2.1 c9ExMock "x".toList⟩

/-- Executor with an empty registry and no MCP manager, for the C8
counterexample. -/
def c8ExExecutor : FunctionExecutorS :=
  ⟨⟨[]⟩, none, fun _ => Except.error "no shell".toList⟩

/-- Counterexample to claim C8: dispatching a name that resolves to no
tool returns `Err(anyhow!("Unknown function: ..."))` to the caller of
`execute_function` — the error is raised, and no code in the repository
converts it into a `Function` turn (the repository ships no orchestration
loop that calls `execute_function` at all). -/
theorem c8_unknown_tool_raises_to_caller :
    executeFunction c8ExExecutor ⟨"frobnicate".toList, Json.obj []⟩ =
      Except.error ("Unknown function: frobnicate".toList) ∧
    (∃ resp, executeFunction c8ExExecutor ⟨"frobnicate".toList, Json.obj []⟩ =
      Except.ok resp) = False := by
  refine ⟨rfl, eq_false ?_⟩
  rintro ⟨resp, h⟩
  exact Except.noConfusion
    (show (Except.error ("Unknown function: frobnicate".toList) :
        Except Str FunctionResponseFS) = Except.ok resp from h)

/-- Claim C8 as amended: resolution checks `shell_command`, then the
built-in `ToolRegistry`, then MCP-provided tools, in that order — a name
found in the built-in registry executes there even when an MCP server
also advertises it — and a name that resolves nowhere makes
`execute_function` return the `Unknown function:` error `Result` to its
caller (nothing in the repository surfaces it as a `Function` turn). -/
theorem c8_unknown_tool_amended :
    (∀ (ex : FunctionExecutorS) (call : FunctionCallFS),
      call.name ≠ "shell_command".toList →
      registryGetTool ex.registry call.name = none →
      (∀ m, ex.mcpManager = some m → m.toolNames.contains call.name = false) →
      executeFunction ex call = Except.error ("Unknown function: ".toList ++ call.name)) ∧
    (∀ (ex : FunctionExecutorS) (call : FunctionCallFS)
      (p : Str × (FunctionCallFS → Except Str FunctionResponseFS)),
      call.name ≠ "shell_command".toList →
      registryGetTool ex.registry call.name = some p →
      executeFunction ex call = p.2 call) := by
  constructor
  · intro ex call hname hreg hmcp
    unfold executeFunction
    rw [if_neg hname, hreg]
    cases hm : ex.mcpManager with
    | none => rfl
    | some m =>
      have := hmcp m hm
      simp [this]
      intro hmem
      exact absurd hmem (by simpa using this)
  · intro ex call p hname hreg
    unfold executeFunction
    rw [if_neg hname, hreg]

/-- Built-in outcome used by the C8 witness. -/
def c8ExTool : FunctionCallFS → Except Str FunctionResponseFS :=
  fun call => Except.ok ⟨"id-1".toList, call.name, Json.str "builtin".toList⟩

/-- Executor whose registry and MCP manager both know the name `dup`,
for the C8 precedence witness. -/
def c8ExExecutor2 : FunctionExecutorS :=
  ⟨⟨[("dup".toList, c8ExTool)]⟩,
   some ⟨["dup".toList],
     fun call => Except.ok ⟨"id-2".toList, call.name, Json.str "mcp".toList⟩⟩,
   fun _ => Except.error "no shell".toList⟩

/-- Witness for the amended C8: the unresolvable name errs, and a name
known to both the registry and the MCP manager executes in the registry. -/
theorem c8_witness :
    executeFunction c8ExExecutor ⟨"frobnicate".toList, Json.obj []⟩ =
      Except.error ("Unknown function: ".toList ++ "frobnicate".toList) ∧
    executeFunction c8ExExecutor2 ⟨"dup".toList, Json.obj []⟩ =
      c8ExTool ⟨"dup".toList, Json.obj []⟩ ∧
    c8ExTool ⟨"dup".toList, Json.obj []⟩ =
      Except.ok ⟨"id-1".toList, "dup".toList, Json.str "builtin".toList⟩ :=
  ⟨c8_unknown_tool_amended.1 c8ExExecutor ⟨"frobnicate".toList, Json.obj []⟩
      (by decide) rfl (by intro m hm; cases hm),
   c8_unknown_tool_amended.2 c8ExExecutor2 ⟨"dup".toList, Json.obj []⟩
      ("dup".toList, c8ExTool) (by decide) rfl,
   rfl⟩

theorem runCycles_always_tools (backend : Nat → ModelResp) (execTool : SToolCall → Json)
    (h : ∀ n, (backend n).toolCalls ≠ []) :
    ∀ (fuel cycle : Nat) (hist : List STurn),
      runCycles backend execTool fuel cycle hist =
        (hist ++ ((List.range fuel).map (· + cycle)).flatMap (roundTrip backend execTool),
         some TurnError.toolLoopExceeded) := by
  intro fuel
  induction fuel with
  | zero => intro cycle hist; simp [runCycles]
  | succ f ih =>
    intro cycle hist
    unfold runCycles
    have hne : ¬ ((backend cycle).toolCalls.isEmpty = true) :=
      fun hh => h cycle (List.isEmpty_iff.mp hh)
    rw [if_neg hne, ih]
    have hshift : ((List.range (f + 1)).map (· + cycle)).flatMap
        (roundTrip backend execTool) =
        roundTrip backend execTool cycle ++
          ((List.range f).map (· + (cycle + 1))).flatMap (roundTrip backend execTool) := by
      rw [List.range_succ_eq_map]
      simp only [List.map_cons, List.flatMap_cons, Nat.zero_add, List.map_map]
      have hfun : ((fun x => x + cycle) ∘ Nat.succ) = (fun x => x + (cycle + 1)) := by
        funext x
        simp only [Function.comp_apply]
        omega
      rw [hfun]
    rw [hshift]
    unfold roundTrip
    simp [List.append_assoc]

/-- Claim C5 (modelled from the spec; the repository ships no
orchestration loop): the continuation loop takes the configurable
`maxIterations` bound, and with a backend that requests another tool call
on every cycle and `maxIterations = 5`, it reports `ToolLoopExceeded` on
the sixth cycle while the history holds the user turn followed by exactly
the five completed tool round-trips, none rolled back. -/
theorem c5_tool_loop_bounded (backend : Nat → ModelResp) (execTool : SToolCall → Json)
    (u : Str) (halways : ∀ n, (backend n).toolCalls ≠ []) :
    (runLoop backend execTool 5 u).2 = some TurnError.toolLoopExceeded ∧
    (runLoop backend execTool 5 u).1 =
      STurn.user u :: (List.range 5).flatMap (roundTrip backend execTool) := by
  have hr := runCycles_always_tools backend execTool halways 5 0 [STurn.user u]
  unfold runLoop
  rw [hr]
  refine ⟨rfl, ?_⟩
  simp

/-- Backend of the C5 witness: always requests one more tool call. -/
def c5ExBackend : Nat → ModelResp :=
  fun _ => ⟨"thinking".toList, [⟨"poke".toList, Json.obj []⟩]⟩

/-- Tool outcomes of the C5 witness. -/
def c5ExExec : SToolCall → Json := fun _ => Json.obj []

/-- Witness for C5 at the concrete always-tool backend: the loop errs
with `ToolLoopExceeded` and the history holds `1 + 5 * 2` turns — the
user turn plus five round-trips of one model turn and one function turn. -/
theorem c5_witness :
    ((runLoop c5ExBackend c5ExExec 5 "go".toList).2 = some TurnError.toolLoopExceeded ∧
      (runLoop c5ExBackend c5ExExec 5 "go".toList).1 =
        STurn.user "go".toList :: (List.range 5).flatMap (roundTrip c5ExBackend c5ExExec)) ∧
    (runLoop c5ExBackend c5ExExec 5 "go".toList).1.length = 11 :=
  ⟨c5_tool_loop_bounded c5ExBackend c5ExExec "go".toList
      (fun n => by simp [c5ExBackend]),
   rfl⟩

theorem isPrefixOf_get? {α : Type} [DecidableEq α] (pat l : List α)
    (h : pat.isPrefixOf l = true) (j : Nat) (hj : j < pat.length) :
    l.get? j = pat.get? j := by
  obtain ⟨t, ht⟩ := List.isPrefixOf_iff_prefix.mp h
  rw [← ht, List.get?_append hj]

theorem boundary_of_get_ascii (buf : List Nat) (i x : Nat)
    (hx : buf.get? i = some x) (hlt : x < 0x80) : isCharBoundaryB buf i = true := by
  unfold isCharBoundaryB
  rw [hx]
  simp [isContByte]
  omega

/-- Byte form of the `"\r\n\r\n"` delimiter. -/
def crlf2B : List Nat := [13, 10, 13, 10]

/-- Byte form of the `"\n\n"` delimiter. -/
def lf2B : List Nat := [10, 10]

/-- Byte form of the `"data: "` line prefix. -/
def dataPrefixB : List Nat := [100, 97, 116, 97, 58, 32]

/-- Byte-index view of the Gemini delimiter search (gemini.rs line 370). -/
def geminiFindDelimB (buf : List Nat) : Option Nat :=
  match findSub crlf2B buf with
  | some i => some i
  | none => findSub lf2B buf

/-- Byte-index view of the skip-length choice (gemini.rs line 372). -/
def geminiSkipLenB (buf : List Nat) (i : Nat) : Nat :=
  if crlf2B.isPrefixOf (buf.drop i) then 4 else 2

/-- Claim C10: on any buffer the decode loop can hold (a valid-UTF-8
accumulation of accepted chunks), every slice the loop takes is in bounds
and on a character boundary — `buffer[..event_end]` and
`buffer[event_end + skip_len..]` for the Gemini delimiter logic (first
conjunct) and the OpenAI `"\n\n"`-only logic (second conjunct), and
`line[6..]` on a trimmed line that starts with `"data: "` (third
conjunct) — so the background decode task never panics on a slice. -/
theorem c10_sse_slices_in_bounds :
    (∀ (buf : List Nat) (i : Nat), (utf8Decode? buf).isSome = true →
      geminiFindDelimB buf = some i →
      i + geminiSkipLenB buf i ≤ buf.length ∧
      isCharBoundaryB buf i = true ∧
      isCharBoundaryB buf (i + geminiSkipLenB buf i) = true) ∧
    (∀ (buf : List Nat) (i : Nat), (utf8Decode? buf).isSome = true →
      findSub lf2B buf = some i →
      i + 2 ≤ buf.length ∧
      isCharBoundaryB buf i = true ∧
      isCharBoundaryB buf (i + 2) = true) ∧
    (∀ (line : List Nat), (utf8Decode? line).isSome = true →
      dataPrefixB.isPrefixOf line = true →
      6 ≤ line.length ∧ isCharBoundaryB line 6 = true) := by
  have lfCase : ∀ (buf : List Nat) (i : Nat), (utf8Decode? buf).isSome = true →
      findSub lf2B buf = some i →
      i + 2 ≤ buf.length ∧
      isCharBoundaryB buf i = true ∧
      isCharBoundaryB buf (i + 2) = true := by
    intro buf i hdec hf
    have hlen := findSub_le_length lf2B buf i hf
    simp only [lf2B, List.length_cons, List.length_nil] at hlen
    have hb0 : buf.get? (i + 0) = some 10 := by
      rw [findSub_get? lf2B buf i 0 hf (by simp [lf2B])]
      rfl
    have hb1 : buf.get? (i + 1) = some 10 := by
      rw [findSub_get? lf2B buf i 1 hf (by simp [lf2B])]
      rfl
    refine ⟨by omega, ?_, ?_⟩
    · exact boundary_of_get_ascii buf i 10 (by simpa using hb0) (by omega)
    · have := utf8_boundary_after buf hdec (i + 1) 10 hb1 (by omega)
      simpa [Nat.add_assoc] using this
  refine ⟨?_, lfCase, ?_⟩
  · intro buf i hdec hf
    unfold geminiFindDelimB at hf
    cases hcr : findSub crlf2B buf with
    | some j =>
      rw [hcr] at hf
      cases hf
      have hpre : crlf2B.isPrefixOf (buf.drop i) = true :=
        findSub_isPrefixOf crlf2B buf i hcr
      have hskip : geminiSkipLenB buf i = 4 := by
        unfold geminiSkipLenB
        rw [if_pos hpre]
      have hlen := findSub_le_length crlf2B buf i hcr
      simp only [crlf2B, List.length_cons, List.length_nil] at hlen
      have hb0 : buf.get? (i + 0) = some 13 := by
        rw [findSub_get? crlf2B buf i 0 hcr (by simp [crlf2B])]
        rfl
      have hb3 : buf.get? (i + 3) = some 10 := by
        rw [findSub_get? crlf2B buf i 3 hcr (by simp [crlf2B])]
        rfl
      rw [hskip]
      refine ⟨by omega, ?_, ?_⟩
      · exact boundary_of_get_ascii buf i 13 (by simpa using hb0) (by omega)
      · have := utf8_boundary_after buf hdec (i + 3) 10 hb3 (by omega)
        simpa [Nat.add_assoc] using this
    | none =>
      rw [hcr] at hf
      have hpre10 : (buf.drop i).get? 0 = some 10 := by
        have := findSub_isPrefixOf lf2B buf i hf
        rw [isPrefixOf_get? lf2B (buf.drop i) this 0 (by simp [lf2B])]
        rfl
      have hnpre : crlf2B.isPrefixOf (buf.drop i) = false := by
        by_contra hc
        have hc2 : crlf2B.isPrefixOf (buf.drop i) = true := by
          cases h2 : crlf2B.isPrefixOf (buf.drop i)
          · exact absurd h2 hc
          · rfl
        have h13 : (buf.drop i).get? 0 = some 13 := by
          rw [isPrefixOf_get? crlf2B (buf.drop i) hc2 0 (by simp [crlf2B])]
          rfl
        rw [hpre10] at h13
        simp at h13
      have hskip : geminiSkipLenB buf i = 2 := by
        unfold geminiSkipLenB
        rw [hnpre]
        rfl
      rw [hskip]
      exact lfCase buf i hdec hf
  · intro line hdec hpre
    have hlen : 6 ≤ line.length := by
      have : dataPrefixB <+: line := List.isPrefixOf_iff_prefix.mp hpre
      have := this.length_le
      simpa [dataPrefixB] using this
    have hb5 : line.get? 5 = some 32 := by
      rw [isPrefixOf_get? dataPrefixB line hpre 5 (by simp [dataPrefixB])]
      rfl
    refine ⟨hlen, ?_⟩
    have := utf8_boundary_after line hdec 5 32 hb5 (by omega)
    simpa using this

/-- Witness for C10 at concrete buffers: the byte form of `"a\n\nb"` for
the delimiter conjunct and of `"data: x"` for the data-line conjunct. -/
theorem c10_witness :
    (1 + geminiSkipLenB [97, 10, 10, 98] 1 ≤ ([97, 10, 10, 98] : List Nat).length ∧
      isCharBoundaryB [97, 10, 10, 98] 1 = true ∧
      isCharBoundaryB [97, 10, 10, 98] (1 + geminiSkipLenB [97, 10, 10, 98] 1) = true) ∧
    (6 ≤ ([100, 97, 116, 97, 58, 32, 120] : List Nat).length ∧
      isCharBoundaryB [100, 97, 116, 97, 58, 32, 120] 6 = true) :=
  ⟨c10_sse_slices_in_bounds.1 [97, 10, 10, 98] 1 (by decide) (by decide),
   c10_sse_slices_in_bounds.2.2 [100, 97, 116, 97, 58, 32, 120] (by decide) (by decide)⟩
